import Mathlib

/-
Verification of the message-store and thread-graph core of the
"the-corporations-email" server.

The Lean definitions below are a shallow embedding of the Python source:
  models.py   — name normalization, UUID validation, the Email entity
  storage.py  — record validation/repair, quarantine, startup initialization,
                the in-memory email map and its CRUD operations
  services.py — thread root/descendant discovery, thread building,
                pagination and read/delete marking

Python strings are modelled as Lean Strings (character lists); the subset of
string operations used by the source (strip, lower, replace) is modelled over
ASCII, which covers every character class the source logic branches on.
JSON documents are modelled by the JValue type; JSON numbers are modelled as
integers (no claim depends on non-integer numerics).  File-system effects
(reading, writing, backing up) are modelled by the FileRead input type:
writing and backups have no observable effect on the in-memory results the
claims are about.  Wall-clock timestamps taken during initialization are
passed in as an explicit `now` argument.
-/

namespace Agora

/-! ### Character helpers (models.py / Python str methods) -/

/-- Whitespace test used by Python `str.strip()` (ASCII whitespace). -/
def isWs (c : Char) : Bool :=
  c == ' ' || c == '\t' || c == '\n' || c == '\r' || c == '\x0b' || c == '\x0c'

/-- Lower-casing of a single character, as Python `str.lower()` acts on ASCII. -/
def lowerChar (c : Char) : Char :=
  if 65 ≤ c.toNat ∧ c.toNat ≤ 90 then Char.ofNat (c.toNat + 32) else c

theorem toNat_ofNat_of_lt {n : Nat} (h : n < 55296) : (Char.ofNat n).toNat = n := by
  have hv : n.isValidChar := Or.inl h
  rw [Char.ofNat, dif_pos hv]
  rfl

theorem isWs_eq_false {c : Char} (h : 33 ≤ c.toNat) : isWs c = false := by
  simp only [isWs, Bool.or_eq_false_iff, beq_eq_false_iff_ne]
  refine ⟨⟨⟨⟨⟨?_, ?_⟩, ?_⟩, ?_⟩, ?_⟩, ?_⟩ <;> (rintro rfl; exact absurd h (by decide))

theorem lowerChar_idem (c : Char) : lowerChar (lowerChar c) = lowerChar c := by
  unfold lowerChar
  by_cases h : 65 ≤ c.toNat ∧ c.toNat ≤ 90
  · rw [if_pos h]
    have ht : (Char.ofNat (c.toNat + 32)).toNat = c.toNat + 32 :=
      toNat_ofNat_of_lt (by omega)
    rw [if_neg (by omega)]
  · rw [if_neg h, if_neg h]

theorem isWs_lowerChar (c : Char) : isWs (lowerChar c) = isWs c := by
  unfold lowerChar
  by_cases h : 65 ≤ c.toNat ∧ c.toNat ≤ 90
  · rw [if_pos h]
    have ht : (Char.ofNat (c.toNat + 32)).toNat = c.toNat + 32 :=
      toNat_ofNat_of_lt (by omega)
    rw [isWs_eq_false (by omega), isWs_eq_false (by omega)]
  · rw [if_neg h]

/-- Python `str.strip()` on a character list. -/
def stripL (l : List Char) : List Char :=
  ((l.dropWhile isWs).reverse.dropWhile isWs).reverse

/-- Python `str.lower()` on a character list. -/
def lowerL (l : List Char) : List Char :=
  l.map lowerChar

/-- models.normalize_name: trim then lower-case. -/
def normalize_name (s : String) : String :=
  ⟨lowerL (stripL s.data)⟩

theorem dropWhile_eq_self_of_head {p : α → Bool} {l : List α}
    (h : ∀ a, l.head? = some a → p a = false) : l.dropWhile p = l := by
  cases l with
  | nil => rfl
  | cons a as =>
    have := h a rfl
    simp [List.dropWhile, this]

theorem head_dropWhile_false {p : α → Bool} {l : List α} {a : α}
    (ha : (l.dropWhile p).head? = some a) : p a = false := by
  have h4 : l.dropWhile p ≠ [] := by
    intro h5; rw [h5] at ha; simp at ha
  have h6 : (l.dropWhile p).head h4 = a := by
    rw [List.head?_eq_head h4] at ha; exact Option.some_inj.mp ha
  rw [← h6]
  exact List.head_dropWhile_not p l h4

theorem dropWhile_dropWhile (p : α → Bool) (l : List α) :
    (l.dropWhile p).dropWhile p = l.dropWhile p :=
  dropWhile_eq_self_of_head (fun _ ha => head_dropWhile_false ha)

theorem stripL_head {l : List Char} {a : Char} (h : (stripL l).head? = some a) :
    isWs a = false := by
  unfold stripL at h
  rw [List.head?_reverse] at h
  obtain ⟨t, ht⟩ := List.dropWhile_suffix (l := (l.dropWhile isWs).reverse) isWs
  have h2 : (l.dropWhile isWs).reverse.getLast? = some a := by
    rw [← ht, List.getLast?_append, h]; rfl
  rw [List.getLast?_reverse] at h2
  exact head_dropWhile_false h2

theorem stripL_idem (l : List Char) : stripL (stripL l) = stripL l := by
  have h1 : (stripL l).dropWhile isWs = stripL l :=
    dropWhile_eq_self_of_head (fun _ ha => stripL_head ha)
  show (((stripL l).dropWhile isWs).reverse.dropWhile isWs).reverse = stripL l
  rw [h1]
  show ((((l.dropWhile isWs).reverse.dropWhile isWs).reverse).reverse.dropWhile
    isWs).reverse = stripL l
  rw [List.reverse_reverse, dropWhile_dropWhile]
  rfl

theorem stripL_map_of_ws (f : Char → Char) (hf : ∀ c, isWs (f c) = isWs c)
    (l : List Char) : stripL (l.map f) = (stripL l).map f := by
  have hws : (isWs ∘ f) = isWs := funext hf
  unfold stripL
  rw [List.dropWhile_map, hws, ← List.map_reverse, List.dropWhile_map, hws,
    ← List.map_reverse]

theorem lowerL_idem (l : List Char) : lowerL (lowerL l) = lowerL l := by
  unfold lowerL
  rw [List.map_map]
  exact List.map_congr_left (fun c _ => lowerChar_idem c)

/-- Normalization is idempotent: normalized names are fixed points. -/
theorem normalize_name_idem (s : String) :
    normalize_name (normalize_name s) = normalize_name s := by
  unfold normalize_name
  apply congrArg String.mk
  show lowerL (stripL (lowerL (stripL s.data))) = lowerL (stripL s.data)
  rw [show lowerL (stripL s.data) = (stripL s.data).map lowerChar from rfl,
    stripL_map_of_ws lowerChar isWs_lowerChar, stripL_idem]
  exact lowerL_idem _

/-! ### UUID and timestamp validation (models.py / storage.py) -/

def isHexChar (c : Char) : Bool :=
  c.isDigit || ('a' ≤ c && c ≤ 'f') || ('A' ≤ c && c ≤ 'F')

def isBraceChar (c : Char) : Bool :=
  c == '\x7b' || c == '\x7d'

/-- Python `str.replace(pat, "")` for a non-empty pattern: remove every
leftmost, non-overlapping occurrence.  Fuelled by the input length so the
recursion is structural. -/
def removePatAux (pat : List Char) : Nat → List Char → List Char
  | 0, cs => cs
  | _ + 1, [] => []
  | fuel + 1, c :: cs =>
    if (c :: cs).take pat.length = pat then
      removePatAux pat fuel ((c :: cs).drop pat.length)
    else c :: removePatAux pat fuel cs

def removePat (s pat : String) : String :=
  ⟨removePatAux pat.data s.data.length s.data⟩

/-- models.validate_uuid: Python `uuid.UUID(s)` succeeds iff after dropping
`urn:`/`uuid:` markers, stripping surrounding braces and removing hyphens,
exactly 32 hex digits remain. -/
def validate_uuid (s : String) : Bool :=
  let t := removePat (removePat s "urn:") "uuid:"
  let cs := ((t.data.dropWhile isBraceChar).reverse.dropWhile isBraceChar).reverse
  let cs := cs.filter (fun c => c != '-')
  cs.length == 32 && cs.all isHexChar

def digitVal? (c : Char) : Option Nat :=
  if c.isDigit then some (c.toNat - 48) else none

/-- The `%m` directive of `strptime` (regex `1[0-2]|0[1-9]|[1-9]`). -/
def parseMonth : List Char → Option (Nat × List Char)
  | c1 :: c2 :: rest =>
    match digitVal? c1, digitVal? c2 with
    | some v1, some v2 =>
      if v1 = 1 ∧ v2 ≤ 2 then some (10 + v2, rest)
      else if v1 = 0 ∧ 1 ≤ v2 then some (v2, rest)
      else if 1 ≤ v1 then some (v1, c2 :: rest)
      else none
    | some v1, none => if 1 ≤ v1 then some (v1, c2 :: rest) else none
    | none, _ => none
  | [c1] =>
    match digitVal? c1 with
    | some v1 => if 1 ≤ v1 then some (v1, []) else none
    | none => none
  | [] => none

/-- The `%d` directive of `strptime` (regex `3[01]|[12]\d|0[1-9]|[1-9]`). -/
def parseDay : List Char → Option (Nat × List Char)
  | c1 :: c2 :: rest =>
    match digitVal? c1, digitVal? c2 with
    | some v1, some v2 =>
      if v1 = 3 ∧ v2 ≤ 1 then some (30 + v2, rest)
      else if 1 ≤ v1 ∧ v1 ≤ 2 then some (10 * v1 + v2, rest)
      else if v1 = 0 ∧ 1 ≤ v2 then some (v2, rest)
      else if 1 ≤ v1 then some (v1, c2 :: rest)
      else none
    | some v1, none => if 1 ≤ v1 then some (v1, c2 :: rest) else none
    | none, _ => none
  | [c1] =>
    match digitVal? c1 with
    | some v1 => if 1 ≤ v1 then some (v1, []) else none
    | none => none
  | [] => none

/-- The `%H` directive of `strptime` (regex `2[0-3]|[0-1]\d|\d`). -/
def parseHour : List Char → Option (Nat × List Char)
  | c1 :: c2 :: rest =>
    match digitVal? c1, digitVal? c2 with
    | some v1, some v2 =>
      if v1 = 2 ∧ v2 ≤ 3 then some (20 + v2, rest)
      else if v1 ≤ 1 then some (10 * v1 + v2, rest)
      else some (v1, c2 :: rest)
    | some v1, none => some (v1, c2 :: rest)
    | none, _ => none
  | [c1] =>
    match digitVal? c1 with
    | some v1 => some (v1, [])
    | none => none
  | [] => none

/-- The `%M` directive of `strptime` (regex `[0-5]\d|\d`). -/
def parseMinute : List Char → Option (Nat × List Char)
  | c1 :: c2 :: rest =>
    match digitVal? c1, digitVal? c2 with
    | some v1, some v2 =>
      if v1 ≤ 5 then some (10 * v1 + v2, rest) else some (v1, c2 :: rest)
    | some v1, none => some (v1, c2 :: rest)
    | none, _ => none
  | [c1] =>
    match digitVal? c1 with
    | some v1 => some (v1, [])
    | none => none
  | [] => none

/-- The `%S` directive of `strptime` (regex `6[0-1]|[0-5]\d|\d`). -/
def parseSecond : List Char → Option (Nat × List Char)
  | c1 :: c2 :: rest =>
    match digitVal? c1, digitVal? c2 with
    | some v1, some v2 =>
      if v1 = 6 ∧ v2 ≤ 1 then some (60 + v2, rest)
      else if v1 ≤ 5 then some (10 * v1 + v2, rest)
      else some (v1, c2 :: rest)
    | some v1, none => some (v1, c2 :: rest)
    | none, _ => none
  | [c1] =>
    match digitVal? c1 with
    | some v1 => some (v1, [])
    | none => none
  | [] => none

/-- A literal character of a `strptime` format (matched case-insensitively). -/
def parseLit (c : Char) : List Char → Option (List Char)
  | d :: rest => if lowerChar d = lowerChar c then some rest else none
  | [] => none

def parse4Digits : List Char → Option (Nat × List Char)
  | c1 :: c2 :: c3 :: c4 :: rest =>
    match digitVal? c1, digitVal? c2, digitVal? c3, digitVal? c4 with
    | some v1, some v2, some v3, some v4 =>
      some (1000 * v1 + 100 * v2 + 10 * v3 + v4, rest)
    | _, _, _, _ => none
  | _ => none

def isLeapYear (y : Nat) : Bool :=
  y % 4 == 0 && (y % 100 != 0 || y % 400 == 0)

def daysInMonth (y m : Nat) : Nat :=
  if m = 2 then (if isLeapYear y then 29 else 28)
  else if m = 4 ∨ m = 6 ∨ m = 9 ∨ m = 11 then 30
  else 31

/-- storage.EmailStorage._validate_timestamp: the string must end in `Z` and
`datetime.strptime(ts, "%Y-%m-%dT%H:%M:%SZ")` must succeed. -/
def validate_timestamp (ts : String) : Bool :=
  (ts.data.getLast? == some 'Z') &&
  (match parse4Digits ts.data with
   | none => false
   | some (y, r1) =>
     match parseLit '-' r1 with
     | none => false
     | some r2 =>
       match parseMonth r2 with
       | none => false
       | some (mo, r3) =>
         match parseLit '-' r3 with
         | none => false
         | some r4 =>
           match parseDay r4 with
           | none => false
           | some (d, r5) =>
             match parseLit 'T' r5 with
             | none => false
             | some r6 =>
               match parseHour r6 with
               | none => false
               | some (h, r7) =>
                 match parseLit ':' r7 with
                 | none => false
                 | some r8 =>
                   match parseMinute r8 with
                   | none => false
                   | some (_mi, r9) =>
                     match parseLit ':' r9 with
                     | none => false
                     | some r10 =>
                       match parseSecond r10 with
                       | none => false
                       | some (s, r11) =>
                         match parseLit 'Z' r11 with
                         | none => false
                         | some r12 =>
                           r12.isEmpty && decide (1 ≤ y) && decide (1 ≤ d) &&
                           decide (d ≤ daysInMonth y mo) && decide (h ≤ 23) &&
                           decide (s ≤ 59))

/-! ### The Email entity (models.py) -/

/-- models.Email with fields in dataclass order.  `from_` mirrors the source
naming (`from` is reserved in Python too); the recipient list is called `to_`
because `to` is reserved in Lean. -/
structure Email where
  to_ : List String
  from_ : String
  subject : String
  content : String
  id : String
  timestamp : String
  is_response_to : Option String
  read_by : List String
  deleted_by : List String
deriving DecidableEq, Repr

/-- models.normalize_name_list: normalize each entry, drop entries that
normalize to the empty string, and deduplicate keeping first occurrences. -/
def normListAux (seen : List String) : List String → List String
  | [] => []
  | n :: ns =>
    let m := normalize_name n
    if m ≠ "" ∧ m ∉ seen then m :: normListAux (m :: seen) ns
    else normListAux seen ns

def normalize_name_list (ns : List String) : List String :=
  normListAux [] ns

/-- The `is_response_to` check of models.Email.__post_init__: absent is fine,
present must be a syntactically valid UUID. -/
def irtValid : Option String → Bool
  | some p => validate_uuid p
  | none => true

/-- models.Email.__post_init__ as a smart constructor: normalizes the name
fields and returns `none` exactly when the dataclass would raise ValueError.
Arguments follow the keyword order used at the construction sites. -/
def Email.make (id : String) (to_ : List String) (from_ subject content : String)
    (timestamp : String) (is_response_to : Option String)
    (read_by deleted_by : List String) : Option Email :=
  let fromN := normalize_name from_
  let toN := normalize_name_list to_
  let rb := normalize_name_list read_by
  let db := normalize_name_list deleted_by
  if toN = [] then none
  else if fromN = "" then none
  else if irtValid is_response_to then
    some ⟨toN, fromN, subject, content, id, timestamp, is_response_to, rb, db⟩
  else none

/-- models.Email.mark_read_by: append the normalized name if absent. -/
def Email.markReadBy (e : Email) (name : String) : Email :=
  let n := normalize_name name
  if n ∈ e.read_by then e else { e with read_by := e.read_by ++ [n] }

/-- models.Email.mark_deleted_by: append the normalized name if absent. -/
def Email.markDeletedBy (e : Email) (name : String) : Email :=
  let n := normalize_name name
  if n ∈ e.deleted_by then e else { e with deleted_by := e.deleted_by ++ [n] }

/-! ### JSON documents (the decoded on-disk values storage.py manipulates) -/

/-- Decoded JSON; numbers are modelled as integers. -/
inductive JValue where
  | str (s : String)
  | num (n : Int)
  | bool (b : Bool)
  | null
  | arr (xs : List JValue)
  | obj (fields : List (String × JValue))

mutual

/-- Structural equality of decoded JSON values (Python `==` on the id values
this model compares; the claims never compare across types). -/
def jeq : JValue → JValue → Bool
  | .str a, .str b => a == b
  | .num a, .num b => a == b
  | .bool a, .bool b => a == b
  | .null, .null => true
  | .arr a, .arr b => jeqList a b
  | .obj a, .obj b => jeqFields a b
  | _, _ => false

def jeqList : List JValue → List JValue → Bool
  | [], [] => true
  | a :: as, b :: bs => jeq a b && jeqList as bs
  | _, _ => false

def jeqFields : List (String × JValue) → List (String × JValue) → Bool
  | [], [] => true
  | (k, a) :: as, (k2, b) :: bs => k == k2 && jeq a b && jeqFields as bs
  | _, _ => false

end

/-- Python dict lookup `d.get(k)` (object keys are unique in decoded JSON). -/
def jget (fs : List (String × JValue)) (k : String) : Option JValue :=
  (fs.find? (fun p => p.1 == k)).map (·.2)

def hasKey (fs : List (String × JValue)) (k : String) : Bool :=
  (jget fs k).isSome

/-- Python dict assignment `d[k] = v`: replace in place, else append. -/
def jset (fs : List (String × JValue)) (k : String) (v : JValue) :
    List (String × JValue) :=
  if hasKey fs k then fs.map (fun p => if p.1 == k then (p.1, v) else p)
  else fs ++ [(k, v)]

/-- Python truthiness of a decoded JSON value. -/
def truthy : Option JValue → Bool
  | none => false
  | some (.str s) => s != ""
  | some (.num n) => n != 0
  | some (.bool b) => b
  | some .null => false
  | some (.arr xs) => !xs.isEmpty
  | some (.obj fs) => !fs.isEmpty

/-- Whether the value can be a Python dict key (lists/dicts are unhashable). -/
def jhashable : JValue → Bool
  | .arr _ => false
  | .obj _ => false
  | _ => true

def pyTypeName : JValue → String
  | .str _ => "str"
  | .num _ => "int"
  | .bool _ => "bool"
  | .null => "NoneType"
  | .arr _ => "list"
  | .obj _ => "dict"

mutual

/-- Python `repr()` of a decoded JSON value (ASCII approximation). -/
def pyRepr : JValue → String
  | .str s => "\x27" ++ s ++ "\x27"
  | .num n => toString n
  | .bool b => if b then "True" else "False"
  | .null => "None"
  | .arr xs => "[" ++ pyReprList xs ++ "]"
  | .obj fs => "\x7b" ++ pyReprFields fs ++ "\x7d"

def pyReprList : List JValue → String
  | [] => ""
  | [x] => pyRepr x
  | x :: y :: xs => pyRepr x ++ ", " ++ pyReprList (y :: xs)

def pyReprFields : List (String × JValue) → String
  | [] => ""
  | [(k, v)] => "\x27" ++ k ++ "\x27: " ++ pyRepr v
  | (k, v) :: f :: fs =>
    "\x27" ++ k ++ "\x27: " ++ pyRepr v ++ ", " ++ pyReprFields (f :: fs)

end

/-- Python `str()` as used inside the f-strings of storage.py. -/
def pyStr : JValue → String
  | .str s => s
  | v => pyRepr v

/-! ### Record validation and repair (storage.EmailStorage._validate_email_data) -/

/-- Deduplicate keeping first occurrences (the seen-set loops of storage.py). -/
def dedupAux (seen : List String) : List String → List String
  | [] => []
  | x :: xs => if x ∈ seen then dedupAux seen xs else x :: dedupAux (x :: seen) xs

/-- The repair applied to `to`/`readBy`/`deletedBy`: keep strings only,
normalize, drop empties, deduplicate preserving order. -/
def normDedupJ (xs : List JValue) : List String :=
  dedupAux []
    (xs.filterMap (fun v =>
      match v with
      | .str s =>
        let n := normalize_name s
        if n = "" then none else some n
      | _ => none))

def allowedRecordFields : List String :=
  ["id", "to", "from", "subject", "content", "timestamp",
   "isResponseTo", "readBy", "deletedBy"]

/-- The `required` list of _validate_email_data and the missing-field errors
it produces (first loop of the validator). -/
def requiredFields : List String :=
  ["id", "to", "from", "subject", "content", "timestamp"]

def missingErrsOf (data : List (String × JValue)) : List String :=
  (requiredFields.filter (fun f => ¬ hasKey data f)).map
    (fun f => "missing required field: " ++ f)

def idErrsOf (data : List (String × JValue)) : List String :=
  match jget data "id" with
  | some (.str s) =>
    if validate_uuid s then []
    else ["invalid UUID format for \x27id\x27: " ++ s]
  | _ => ["field \x27id\x27 must be a string"]

def toFix (data : List (String × JValue)) :
    List String × List (String × JValue) :=
  match jget data "to" with
  | some (.arr xs) =>
    let ded := normDedupJ xs
    ((if ded = [] then ["field \x27to\x27 must have at least one valid recipient"]
      else []),
     jset data "to" (.arr (ded.map JValue.str)))
  | _ => (["field \x27to\x27 must be an array"], data)

def fromFix (data fs : List (String × JValue)) :
    List String × List (String × JValue) :=
  match jget data "from" with
  | some (.str s) =>
    let n := normalize_name s
    ((if n = "" then ["field \x27from\x27 cannot be empty"] else []),
     jset fs "from" (.str n))
  | _ => (["field \x27from\x27 must be a string"], fs)

def subjFix (data fs : List (String × JValue)) :
    List String × List (String × JValue) :=
  match jget data "subject" with
  | some (.str s) => ([], jset fs "subject" (.str ⟨stripL s.data⟩))
  | _ => (["field \x27subject\x27 must be a string"], fs)

def contFix (data fs : List (String × JValue)) :
    List String × List (String × JValue) :=
  match jget data "content" with
  | some (.str s) => ([], jset fs "content" (.str ⟨stripL s.data⟩))
  | _ => (["field \x27content\x27 must be a string"], fs)

def tsErrsOf (data : List (String × JValue)) : List String :=
  match jget data "timestamp" with
  | some (.str s) =>
    if validate_timestamp s then []
    else ["invalid timestamp format: " ++ s]
  | some v => ["invalid timestamp format: " ++ pyStr v]
  | none => ["invalid timestamp format: None"]

def irtErrsOf (data : List (String × JValue)) : List String :=
  match jget data "isResponseTo" with
  | none => []
  | some .null => []
  | some (.str s) =>
    if validate_uuid s then []
    else ["invalid UUID format for \x27isResponseTo\x27: " ++ s]
  | some _ => ["field \x27isResponseTo\x27 must be a string or null"]

def rbFix (data fs : List (String × JValue)) :
    List String × List (String × JValue) :=
  match jget data "readBy" with
  | none => ([], jset fs "readBy" (.arr []))
  | some (.arr xs) =>
    ([], jset fs "readBy" (.arr ((normDedupJ xs).map JValue.str)))
  | some _ => (["field \x27readBy\x27 must be an array"], fs)

def dbFix (data fs : List (String × JValue)) :
    List String × List (String × JValue) :=
  match jget data "deletedBy" with
  | none => ([], jset fs "deletedBy" (.arr []))
  | some (.arr xs) =>
    ([], jset fs "deletedBy" (.arr ((normDedupJ xs).map JValue.str)))
  | some _ => (["field \x27deletedBy\x27 must be an array"], fs)

/-- The record after each recoverable fix of _validate_email_data, in the
order the validator applies them (to, from, subject, content, readBy,
deletedBy). -/
def fixed1 (data : List (String × JValue)) : List (String × JValue) :=
  (toFix data).2

def fixed2 (data : List (String × JValue)) : List (String × JValue) :=
  (fromFix data (fixed1 data)).2

def fixed3 (data : List (String × JValue)) : List (String × JValue) :=
  (subjFix data (fixed2 data)).2

def fixed4 (data : List (String × JValue)) : List (String × JValue) :=
  (contFix data (fixed3 data)).2

def fixed5 (data : List (String × JValue)) : List (String × JValue) :=
  (rbFix data (fixed4 data)).2

def fixed6 (data : List (String × JValue)) : List (String × JValue) :=
  (dbFix data (fixed5 data)).2

/-- All field-validation reasons, in the order the validator emits them. -/
def allErrs (data : List (String × JValue)) : List String :=
  idErrsOf data ++ (toFix data).1 ++ (fromFix data (fixed1 data)).1 ++
  (subjFix data (fixed2 data)).1 ++ (contFix data (fixed3 data)).1 ++
  tsErrsOf data ++ irtErrsOf data ++ (rbFix data (fixed4 data)).1 ++
  (dbFix data (fixed5 data)).1

/-- storage.EmailStorage._validate_email_data: returns
(is_valid, error reasons, record with recoverable fixes applied). -/
def validate_email_data (data : List (String × JValue)) :
    Bool × List String × List (String × JValue) :=
  if missingErrsOf data ≠ [] then (false, missingErrsOf data, data)
  else ((allErrs data).isEmpty, allErrs data,
    (fixed6 data).filter (fun p => p.1 ∈ allowedRecordFields))

/-! ### The in-memory email map (storage.EmailStorage CRUD) -/

/-- The `_emails` dict: insertion-ordered association list with unique keys. -/
abbrev EmailMap := List (String × Email)

/-- Python dict assignment `self._emails[k] = e`. -/
def dictInsert (m : EmailMap) (k : String) (v : Email) : EmailMap :=
  if (m.find? (fun p => p.1 == k)).isSome then
    m.map (fun p => if p.1 == k then (p.1, v) else p)
  else m ++ [(k, v)]

/-- storage.EmailStorage.get_all. -/
def get_all (m : EmailMap) : List Email :=
  m.map (·.2)

/-- storage.EmailStorage.get_by_id. -/
def get_by_id (m : EmailMap) (email_id : String) : Option Email :=
  (m.find? (fun p => p.1 == email_id)).map (·.2)

/-- storage.EmailStorage.create: always stores, overwriting a same-id entry. -/
def create (m : EmailMap) (e : Email) : EmailMap :=
  dictInsert m e.id e

/-- storage.EmailStorage.update: no-op returning `none` when the id is absent. -/
def update (m : EmailMap) (e : Email) : Option Email × EmailMap :=
  if (m.find? (fun p => p.1 == e.id)).isSome then (some e, dictInsert m e.id e)
  else (none, m)

/-- storage.EmailStorage.delete. -/
def deleteById (m : EmailMap) (email_id : String) : Bool × EmailMap :=
  if (m.find? (fun p => p.1 == email_id)).isSome then
    (true, m.filter (fun p => p.1 != email_id))
  else (false, m)

/-! ### Startup initialization (storage.EmailStorage.initialize) -/

/-- Result of `_read_json_file`: the file may be absent, raise a StorageError
(malformed JSON or an IO failure), or decode to a value. -/
inductive FileRead where
  | absent
  | parseError
  | ok (v : JValue)

/-- How initialize() can abort: the explicit StorageInitError raises, or an
uncaught Python runtime error (AttributeError from calling `.get` on a
non-dict record, TypeError from using an unhashable value as a dict key). -/
inductive InitError where
  | storageInitError (msg : String)
  | attributeError
  | typeError
deriving DecidableEq, Repr

/-- storage.EmailStorage._validate_version: valid iff the value is `1` or the
string `"1"` (Python `==` also equates `True` with `1`); the second component
records whether a string-to-int conversion is needed. -/
def validate_version : Option JValue → Bool × Bool
  | some (.num 1) => (true, false)
  | some (.bool true) => (true, false)
  | some (.str "1") => (true, true)
  | _ => (false, false)

/-- The emails.json half of initialize(): returns the list of raw records to
validate, or the fatal startup error.  Structure problems (not an object,
missing version) are fatal; an unsupported version discards the document
(timestamped backup, observable here as an empty record list); a missing
`emails` key defaults to an empty list; a present non-array `emails` value is
fatal.  The string-"1" version conversion only affects what is written back
to disk, so it does not appear here. -/
def loadEmailsRecords : FileRead → Except InitError (List JValue)
  | .parseError => .error (.storageInitError "emails.json is invalid")
  | .absent => .ok []
  | .ok (.obj fs) =>
    if ¬ hasKey fs "version" then
      .error (.storageInitError
        "emails.json has invalid structure: Missing \x27version\x27 field")
    else if ¬ (validate_version (jget fs "version")).1 then .ok []
    else
      match jget fs "emails" with
      | none => .ok []
      | some (.arr rs) => .ok rs
      | some _ =>
        .error (.storageInitError "emails.json \x27emails\x27 field is not an array")
  | .ok v =>
    .error (.storageInitError
      ("emails.json has invalid structure: Expected object, got " ++ pyTypeName v))

/-- The quarantine.json half of initialize(): every detected problem (parse
error, absent file, not an object, missing version or quarantined key, bad
version) is healed by backing up and recreating an empty document, leaving
`_quarantined = []`.  A document that passes those checks contributes its raw
`quarantined` value — which is NOT checked to be a list. -/
def loadQuarantined : FileRead → JValue
  | .parseError => .arr []
  | .absent => .arr []
  | .ok (.obj fs) =>
    if ¬ hasKey fs "version" ∨ ¬ hasKey fs "quarantined" then .arr []
    else if ¬ (validate_version (jget fs "version")).1 then .arr []
    else
      match jget fs "quarantined" with
      | some x => x
      | none => .arr []
  | .ok _ => .arr []

/-- storage.EmailStorage._quarantine_email: the appended quarantine entry. -/
def mkQuarantineEntry (original : JValue) (reason now : String) : JValue :=
  .obj [("original", original), ("reason", .str reason),
        ("quarantined_at", .str now)]

/-- Sequencing of fallible initialization steps (Python exception
propagation): an error aborts, a success feeds the next step. -/
def exBind {α β : Type} (x : Except InitError α)
    (f : α → Except InitError β) : Except InitError β :=
  match x with
  | .error e => .error e
  | .ok a => f a

/-- `self._quarantined.append(entry)`: raises AttributeError when the loaded
`quarantined` value was not a list. -/
def quarAppend (q entry : JValue) : Except InitError JValue :=
  match q with
  | .arr xs => .ok (.arr (xs ++ [entry]))
  | _ => .error .attributeError

/-- The grouping pass of initialize(): `email_data.get('id')` raises
AttributeError on a non-dict record, and inserting a truthy unhashable id
into the `id_occurrences` dict raises TypeError. -/
def firstPassCheck : List JValue → Except InitError Unit
  | [] => .ok ()
  | .obj fs :: rs =>
    match jget fs "id" with
    | some v =>
      if truthy (some v) then
        if jhashable v then firstPassCheck rs else .error .typeError
      else firstPassCheck rs
    | none => firstPassCheck rs
  | _ :: _ => .error .attributeError

/-- How many records of the collection carry this (truthy, hashable) id —
the length of its `id_occurrences` group. -/
def idCount (records : List JValue) (v : JValue) : Nat :=
  (records.filter (fun r =>
    match r with
    | .obj fs =>
      match jget fs "id" with
      | some w => jeq w v
      | none => false
    | _ => false)).length

def asStr : Option JValue → String
  | some (.str s) => s
  | _ => ""

def asStrList : Option JValue → List String
  | some (.arr xs) =>
    xs.filterMap (fun v => match v with | .str s => some s | _ => none)
  | _ => []

def asOptStr : Option JValue → Option String
  | some (.str s) => some s
  | _ => none

/-- Python `"; ".join(reasons)`. -/
def joinReasons : List String → String
  | [] => ""
  | [x] => x
  | x :: y :: xs => x ++ "; " ++ joinReasons (y :: xs)

/-- The Email construction call of initialize(), reading the keyword
arguments out of the repaired record. -/
def makeFromFixed (fixed : List (String × JValue)) : Option Email :=
  Email.make (asStr (jget fixed "id")) (asStrList (jget fixed "to"))
    (asStr (jget fixed "from")) (asStr (jget fixed "subject"))
    (asStr (jget fixed "content")) (asStr (jget fixed "timestamp"))
    (asOptStr (jget fixed "isResponseTo")) (asStrList (jget fixed "readBy"))
    (asStrList (jget fixed "deletedBy"))

/-- The validate-and-store tail of one second-pass iteration of initialize():
validate/repair the record, construct the Email and store it keyed by its id,
or quarantine it with its joined reasons. -/
def processValidate (now : String) (st : EmailMap × JValue)
    (fs : List (String × JValue)) : Except InitError (EmailMap × JValue) :=
  let v := validate_email_data fs
  if ¬ v.1 then
    exBind (quarAppend st.2
        (mkQuarantineEntry (.obj fs) (joinReasons v.2.1) now))
      (fun q => .ok (st.1, q))
  else
    (makeFromFixed v.2.2).elim
      (exBind (quarAppend st.2
          (mkQuarantineEntry (.obj fs) "failed to create Email object" now))
        (fun q => .ok (st.1, q)))
      (fun e => .ok (dictInsert st.1 e.id e, st.2))

/-- One iteration of the second pass of initialize(): quarantine records whose
truthy id occurs more than once, otherwise validate and store. -/
def processRecord (records : List JValue) (now : String)
    (st : EmailMap × JValue) (r : JValue) : Except InitError (EmailMap × JValue) :=
  match r with
  | .obj fs =>
    (jget fs "id").elim (processValidate now st fs) (fun v =>
      if truthy (some v) && idCount records v > 1 then
        exBind (quarAppend st.2
            (mkQuarantineEntry (.obj fs) ("duplicate id: " ++ pyStr v) now))
          (fun q => .ok (st.1, q))
      else processValidate now st fs)
  | _ => .error .attributeError

/-- The second-pass loop body of initialize(), folding processRecord over the
records in order; an exception aborts the whole loop. -/
def foldRecords (records : List JValue) (now : String) :
    EmailMap × JValue → List JValue → Except InitError (EmailMap × JValue)
  | st, [] => .ok st
  | st, r :: rs =>
    exBind (processRecord records now st r)
      (fun st1 => foldRecords records now st1 rs)

def processRecords (now : String) (records : List JValue) (q0 : JValue) :
    Except InitError (EmailMap × JValue) :=
  exBind (firstPassCheck records)
    (fun _ => foldRecords records now ([], q0) records)

structure InitResult where
  emails : EmailMap
  quarantined : JValue

/-- storage.EmailStorage.initialize, as a function of the decoded contents of
the two on-disk documents.  `now` stands for the wall clock used for
`quarantined_at` stamps.  (Named initializeStorage because the source name is
a reserved word in Lean.) -/
def initializeStorage (now : String) (ef qf : FileRead) :
    Except InitError InitResult :=
  exBind (loadEmailsRecords ef) (fun records =>
    exBind (processRecords now records (loadQuarantined qf))
      (fun p => .ok ⟨p.1, p.2⟩))

/-! ### Thread-graph engine (services.py) -/

/-- One iteration of the services.find_thread_root loop: `none` when the walk
stops (no parent, parent already visited in this walk, or parent not stored),
otherwise the parent together with the grown visited set. -/
def rootStep (m : EmailMap) (cur : Email) (visited : List String) :
    Option (Email × List String) :=
  cur.is_response_to.bind (fun pid =>
    if pid ∈ visited then none
    else (get_by_id m pid).map (fun parent => (parent, pid :: visited)))

/-- The loop of services.find_thread_root: follow `isResponseTo` upward while
the parent exists and was not visited in this walk.  The Python loop is
while-based; the fuel argument makes it structural, and the fuel theorems show
`m.length` steps always suffice. -/
def findRootAux (m : EmailMap) : Nat → Email → List String → Email
  | 0, cur, _ => cur
  | n + 1, cur, visited =>
    match rootStep m cur visited with
    | none => cur
    | some (parent, vis2) => findRootAux m n parent vis2

/-- services.find_thread_root. -/
def find_thread_root (m : EmailMap) (email_id : String) : Option Email :=
  match get_by_id m email_id with
  | none => none
  | some e => some (findRootAux m m.length e [e.id])

def irtMem (irt : Option String) (ids : List String) : Bool :=
  match irt with
  | some p => ids.contains p
  | none => false

/-- One full scan of the collection in services.find_thread_descendants:
pick up every email whose id is new and whose parent is already in the
accumulated id set. -/
def descPass (ids : List String) (acc : List Email) (changed : Bool) :
    List Email → List String × List Email × Bool
  | [] => (ids, acc, changed)
  | e :: rest =>
    if !ids.contains e.id && irtMem e.is_response_to ids then
      descPass (e.id :: ids) (acc ++ [e]) true rest
    else descPass ids acc changed rest

/-- The while-changed loop of services.find_thread_descendants (fuelled; the
fuel theorems show `emails.length + 1` scans always reach the fixed point). -/
def descLoop (emails : List Email) : Nat → List String → List Email →
    List String × List Email
  | 0, ids, acc => (ids, acc)
  | n + 1, ids, acc =>
    let r := descPass ids acc false emails
    if r.2.2 then descLoop emails n r.1 r.2.1 else (r.1, r.2.1)

/-- services.find_thread_descendants. -/
def find_thread_descendants (m : EmailMap) (root_id : String) : List Email :=
  let all := get_all m
  let acc0 := match get_by_id m root_id with | some r => [r] | none => []
  (descLoop all (all.length + 1) [root_id] acc0).2

/-- Stable insertion of one email into a larger-timestamp-first list: it goes
after every element whose timestamp is ≥ its own, which is exactly where
Python's stable descending sort keeps it. -/
def insertDesc (e : Email) : List Email → List Email
  | [] => [e]
  | x :: xs =>
    if e.timestamp ≤ x.timestamp then x :: insertDesc e xs else e :: x :: xs

/-- Python `list.sort(key=timestamp, reverse=True)`: the unique stable
descending reordering of the input. -/
def sortDescByTimestamp (l : List Email) : List Email :=
  l.foldl (fun acc e => insertDesc e acc) []

/-- services.build_thread. -/
def build_thread (m : EmailMap) (email_id : String) : Option Email × List Email :=
  match get_by_id m email_id with
  | none => (none, [])
  | some requested =>
    match find_thread_root m email_id with
    | none => (some requested, [])
    | some root =>
      let allThread := find_thread_descendants m root.id
      let thread := allThread.filter (fun e => e.id != email_id)
      (some requested, sortDescByTimestamp thread)

/-! ### Read/delete marking (services.py, agora-15) -/

/-- services.mark_as_read: normalize the viewer, mark via the model method and
persist through update (whose not-found result the source ignores). -/
def mark_as_read (m : EmailMap) (email_id viewer : String) : Bool × EmailMap :=
  match get_by_id m email_id with
  | none => (false, m)
  | some e =>
    let e2 := e.markReadBy (normalize_name viewer)
    (true, (update m e2).2)

/-- services.mark_as_deleted. -/
def mark_as_deleted (m : EmailMap) (email_id viewer : String) : Bool × EmailMap :=
  match get_by_id m email_id with
  | none => (false, m)
  | some e =>
    let e2 := e.markDeletedBy (normalize_name viewer)
    (true, (update m e2).2)

/-! ### Pagination (services.py, agora-14) -/

structure Pagination where
  page : Int
  per_page : Nat
  total_items : Nat
  total_pages : Nat
  has_next : Bool
  has_prev : Bool
deriving DecidableEq, Repr

structure PageResult (α : Type) where
  data : List α
  pagination : Pagination
deriving DecidableEq, Repr

/-- services.PaginationError (the interpolated argument reprs are kept out of
the message texts; no claim inspects them). -/
structure PaginationError where
  message : String
  code : String
deriving DecidableEq, Repr

/-- Python list slicing `l[a:b]` with negative-index normalization and
clamping. -/
def pySlice (l : List α) (a b : Int) : List α :=
  let n : Int := l.length
  let norm := fun (i : Int) => (if i < 0 then max 0 (n + i) else min i n).toNat
  (l.drop (norm a)).take (norm b - norm a)

/-- services.paginate. -/
def paginate (items : List α) (page : Int) (per_page : Nat)
    (allow_empty : Bool) : Except PaginationError (PageResult α) :=
  let total_items := items.length
  if total_items = 0 then
    if !allow_empty && page ≠ 1 then
      .error ⟨"Page " ++ toString page ++ " exceeds total pages (1)", "INVALID_PAGE"⟩
    else .ok ⟨[], ⟨1, per_page, 0, 1, false, false⟩⟩
  else
    let total_pages := (total_items + per_page - 1) / per_page
    if page > total_pages then
      .error ⟨"Page " ++ toString page ++ " exceeds total pages (" ++
        toString total_pages ++ ")", "INVALID_PAGE"⟩
    else
      let start_idx : Int := (page - 1) * per_page
      .ok ⟨pySlice items start_idx (start_idx + per_page),
        ⟨page, per_page, total_items, total_pages,
         decide (page < total_pages), decide (page > 1)⟩⟩

/-- The argument domain of services.validate_page_number: query parameters
arrive as ints, floats, strings or other objects (None, lists, ...). -/
inductive PageArg where
  | int (n : Int)
  | float
  | str (s : String)
  | noneVal
  | otherVal
deriving DecidableEq, Repr

def digitsTail : List Char → Bool
  | [] => true
  | c :: cs =>
    if c = '_' then
      match cs with
      | [] => false
      | c2 :: cs2 => c2.isDigit && digitsTail cs2
    else c.isDigit && digitsTail cs

/-- The digit part of a Python int literal: nonempty digits with single
underscores strictly between digits. -/
def digitsOK : List Char → Bool
  | [] => false
  | c :: cs => c.isDigit && digitsTail cs

def digitsVal (cs : List Char) : Nat :=
  cs.foldl (fun n c => if c.isDigit then 10 * n + (c.toNat - 48) else n) 0

/-- The sign-and-digits grammar of a Python int literal. -/
def pyIntOfChars : List Char → Option Int
  | [] => none
  | c :: rest =>
    if c = '+' then (if digitsOK rest then some (digitsVal rest) else none)
    else if c = '-' then
      (if digitsOK rest then some (-(digitsVal rest : Int)) else none)
    else if digitsOK (c :: rest) then some (digitsVal (c :: rest)) else none

/-- Python `int(s)` on a string: strip whitespace, optional sign, underscore-
grouped digits. -/
def pyIntOfStr (s : String) : Option Int :=
  pyIntOfChars (stripL s.data)

def pageErr : PaginationError :=
  ⟨"Page must be a positive integer", "INVALID_PAGE"⟩

/-- services.validate_page_number: reject floats outright; convert via
Python `int()` (ValueError/TypeError become the same rejection); reject
results `< 1`; reject strings containing a dot. -/
def validate_page_number : PageArg → Except PaginationError Int
  | .float => .error pageErr
  | .int n => if n < 1 then .error pageErr else .ok n
  | .str s =>
    match pyIntOfStr s with
    | none => .error pageErr
    | some n =>
      if n < 1 then .error pageErr
      else if s.data.contains '.' then .error pageErr
      else .ok n
  | .noneVal => .error pageErr
  | .otherVal => .error pageErr

/-! ### Store invariants and reachable states -/

/-- An Email value that the models.Email constructor can actually produce. -/
def ValidEmail (e : Email) : Prop :=
  ∃ id to_ from_ subject content timestamp irt rb db,
    Email.make id to_ from_ subject content timestamp irt rb db = some e

/-- The per-record part of the C1 invariant that every store operation in the
source preserves: `to` is non-empty and normalized member-wise, `from` is
normalized and non-empty, and `readBy`/`deletedBy` members are normalized. -/
def EmailInv (e : Email) : Prop :=
  e.to_ ≠ [] ∧ (∀ n ∈ e.to_, normalize_name n = n ∧ n ≠ "") ∧
  normalize_name e.from_ = e.from_ ∧ e.from_ ≠ "" ∧
  (∀ n ∈ e.read_by, normalize_name n = n) ∧
  (∀ n ∈ e.deleted_by, normalize_name n = n)

/-- Store well-formedness: unique keys, each equal to its record's id. -/
def WFMap (m : EmailMap) : Prop :=
  (m.map (·.1)).Nodup ∧ ∀ p ∈ m, p.1 = p.2.id

/-- The full store invariant. -/
def StoreInv (m : EmailMap) : Prop :=
  (m.map (·.1)).Nodup ∧ ∀ p ∈ m, p.1 = p.2.id ∧ EmailInv p.2

/-- Store states reachable from a successful initialize() through the CRUD
and marking operations (create/update take constructor-produced emails). -/
inductive Reachable : EmailMap → Prop where
  | init (now : String) (ef qf : FileRead) (res : InitResult)
      (h : initializeStorage now ef qf = .ok res) : Reachable res.emails
  | create {m : EmailMap} {e : Email} (hm : Reachable m) (he : ValidEmail e) :
      Reachable (create m e)
  | update {m : EmailMap} {e : Email} (hm : Reachable m) (he : ValidEmail e) :
      Reachable (update m e).2
  | delete {m : EmailMap} (hm : Reachable m) (email_id : String) :
      Reachable (deleteById m email_id).2
  | markRead {m : EmailMap} (hm : Reachable m) (email_id viewer : String) :
      Reachable (mark_as_read m email_id viewer).2
  | markDeleted {m : EmailMap} (hm : Reachable m) (email_id viewer : String) :
      Reachable (mark_as_deleted m email_id viewer).2

/-- The thread id-set of services.find_thread_descendants, as the least set
containing the root id and closed under adding any stored record whose
`isResponseTo` is already inside. -/
inductive InThread (m : EmailMap) (root_id : String) : String → Prop where
  | base : InThread m root_id root_id
  | step (e : Email) (p : String) (he : e ∈ get_all m)
      (hp : e.is_response_to = some p) (hin : InThread m root_id p) :
      InThread m root_id e.id

/-! ### Association-list lemmas -/

theorem find?_fst {m : EmailMap} {i : String} {p : String × Email}
    (h : m.find? (fun q => q.1 == i) = some p) : p.1 = i := by
  have := List.find?_some h
  simpa using this

theorem find?_map_keyfix (f : String × Email → String × Email)
    (hf : ∀ p, (f p).1 = p.1) (m : EmailMap) (i : String) :
    (m.map f).find? (fun p => p.1 == i) =
      (m.find? (fun p => p.1 == i)).map f := by
  induction m with
  | nil => rfl
  | cons a t ih =>
    rw [List.map_cons]
    by_cases h : a.1 = i
    · rw [List.find?_cons_of_pos (l := t) (by simpa using h),
        List.find?_cons_of_pos (l := t.map f) (by simp [hf a, h])]
      rfl
    · rw [List.find?_cons_of_neg (l := t) (by simpa using h),
        List.find?_cons_of_neg (l := t.map f) (by simp [hf a, h]), ih]

theorem mem_dictInsert {m : EmailMap} {k : String} {v : Email}
    {p : String × Email} (h : p ∈ dictInsert m k v) : p.1 = k ∨ p ∈ m := by
  unfold dictInsert at h
  by_cases hc : (m.find? (fun q => q.1 == k)).isSome
  · rw [if_pos hc] at h
    obtain ⟨q, hq, rfl⟩ := List.mem_map.mp h
    by_cases hqk : q.1 = k
    · left; simp [hqk]
    · right; simpa [hqk] using hq
  · rw [if_neg hc] at h
    rcases List.mem_append.mp h with h | h
    · exact Or.inr h
    · left; simp at h; rw [h]

/-! ### C8: idempotence of the marking operations -/

theorem markReadBy_twice (e : Email) (n : String) :
    (e.markReadBy n).markReadBy n = e.markReadBy n := by
  by_cases h : normalize_name n ∈ e.read_by
  · simp [Email.markReadBy, h]
  · simp [Email.markReadBy, h]

theorem markDeletedBy_twice (e : Email) (n : String) :
    (e.markDeletedBy n).markDeletedBy n = e.markDeletedBy n := by
  by_cases h : normalize_name n ∈ e.deleted_by
  · simp [Email.markDeletedBy, h]
  · simp [Email.markDeletedBy, h]

/-- The common shape of mark_as_read / mark_as_deleted: fetch, transform with
an idempotent function, write back through update (ignoring its result). -/
def markOp (f : Email → Email) (m : EmailMap) (i : String) : Bool × EmailMap :=
  match get_by_id m i with
  | none => (false, m)
  | some e => (true, (update m (f e)).2)

theorem markOp_spec (f : Email → Email)
    (hff : ∀ e, f (f e) = f e) (m : EmailMap) (i : String) :
    (markOp f m i).1 = (get_by_id m i).isSome ∧
    markOp f (markOp f m i).2 i = markOp f m i := by
  cases hg : get_by_id m i with
  | none => simp [markOp, hg]
  | some e =>
    obtain ⟨p0, hp0, hp0e⟩ : ∃ p0, m.find? (fun p => p.1 == i) = some p0 ∧
        p0.2 = e := by
      unfold get_by_id at hg
      cases hf : m.find? (fun p => p.1 == i) with
      | none => rw [hf] at hg; simp at hg
      | some p => rw [hf] at hg; exact ⟨p, rfl, by simpa using hg⟩
    have h1 : markOp f m i = (true, (update m (f e)).2) := by
      simp [markOp, hg]
    refine ⟨by simp [markOp, hg], ?_⟩
    rw [h1]
    by_cases hu : (m.find? (fun q => q.1 == (f e).id)).isSome
    · -- the updated entry exists: the map is rewritten in place
      set mr := fun p : String × Email =>
        if p.1 == (f e).id then (p.1, f e) else p with hmr
      have hupd : (update m (f e)).2 = m.map mr := by
        unfold update dictInsert
        rw [if_pos hu, if_pos hu]
      have hmrfst : ∀ p, (mr p).1 = p.1 := by
        intro p; rw [hmr]; by_cases h : p.1 == (f e).id <;> simp [h]
      have hget2 : get_by_id (m.map mr) i = some ((mr p0).2) := by
        unfold get_by_id
        rw [find?_map_keyfix mr hmrfst, hp0]
        rfl
      have hkeys2 : ((m.map mr).find? (fun q => q.1 == (f e).id)).isSome := by
        rw [find?_map_keyfix mr hmrfst]
        simpa using hu
      have hmm : (m.map mr).map mr = m.map mr := by
        rw [List.map_map]
        refine List.map_congr_left (fun p _ => ?_)
        show mr (mr p) = mr p
        rw [hmr]
        by_cases h : p.1 = (f e).id
        · simp [h]
        · simp [h]
      rw [hupd]
      by_cases hik : p0.1 = (f e).id
      · -- the requested id is the updated key: we read back f e
        have hv : (mr p0).2 = f e := by rw [hmr]; simp [hik]
        have h2 : markOp f (m.map mr) i = (true, (update (m.map mr) (f e)).2) := by
          simp [markOp, hget2, hv, hff]
        rw [h2]
        unfold update dictInsert
        rw [if_pos hkeys2, if_pos hkeys2]
        rw [hmm]
      · -- ill-keyed store: the entry at i is untouched, the rewrite repeats
        have hv : (mr p0).2 = e := by rw [hmr]; simp [hik, hp0e]
        have h2 : markOp f (m.map mr) i = (true, (update (m.map mr) (f e)).2) := by
          simp [markOp, hget2, hv]
        rw [h2]
        unfold update dictInsert
        rw [if_pos hkeys2, if_pos hkeys2]
        rw [hmm]
    · -- update was a silent no-op: the second call repeats verbatim
      have hupd : (update m (f e)).2 = m := by
        unfold update; rw [if_neg hu]
      rw [hupd, h1, hupd]

theorem mark_as_read_eq_markOp (m : EmailMap) (i v : String) :
    mark_as_read m i v = markOp (fun e => e.markReadBy (normalize_name v)) m i := by
  unfold mark_as_read markOp
  rfl

theorem mark_as_deleted_eq_markOp (m : EmailMap) (i v : String) :
    mark_as_deleted m i v =
      markOp (fun e => e.markDeletedBy (normalize_name v)) m i := by
  unfold mark_as_deleted markOp
  rfl

/-- C8: mark-as-read and mark-as-deleted report success exactly when the
message exists, and applying either twice with the same viewer yields the
same store (hence the same readBy / deletedBy sets) as applying it once. -/
theorem claim_mark_idempotent (m : EmailMap) (email_id viewer : String) :
    ((mark_as_read m email_id viewer).1 = (get_by_id m email_id).isSome ∧
     mark_as_read (mark_as_read m email_id viewer).2 email_id viewer =
       mark_as_read m email_id viewer) ∧
    ((mark_as_deleted m email_id viewer).1 = (get_by_id m email_id).isSome ∧
     mark_as_deleted (mark_as_deleted m email_id viewer).2 email_id viewer =
       mark_as_deleted m email_id viewer) := by
  constructor
  · rw [mark_as_read_eq_markOp, mark_as_read_eq_markOp]
    exact markOp_spec _ (fun e => markReadBy_twice e (normalize_name viewer))
      m email_id
  · rw [mark_as_deleted_eq_markOp, mark_as_deleted_eq_markOp]
    exact markOp_spec _ (fun e => markDeletedBy_twice e (normalize_name viewer))
      m email_id

/-! ### C6: pagination -/

/-- C6: with per_page ≥ 1 — an empty list yields page 1, empty data,
total 0/1 pages and no next/prev regardless of the requested page; on a
non-empty list the page count is the positive ceiling of count/per_page, a
page beyond it raises the page-exceeds error, and any other page returns the
slice [(page-1)·per_page : page·per_page] with has_next/has_prev as claimed. -/
theorem claim_paginate {α : Type} (items : List α) (page : Int) (per_page : Nat)
    (hpp : 1 ≤ per_page) :
    (items = [] → ∀ pg : Int, paginate items pg per_page true =
      .ok ⟨[], ⟨1, per_page, 0, 1, false, false⟩⟩) ∧
    (items ≠ [] →
      (1 ≤ (items.length + per_page - 1) / per_page ∧
       items.length ≤ ((items.length + per_page - 1) / per_page) * per_page ∧
       ((items.length + per_page - 1) / per_page) * per_page <
         items.length + per_page) ∧
      (page > ((items.length + per_page - 1) / per_page : Nat) →
        ∃ msg, paginate items page per_page true =
          .error ⟨msg, "INVALID_PAGE"⟩) ∧
      (page ≤ ((items.length + per_page - 1) / per_page : Nat) →
        paginate items page per_page true =
          .ok ⟨pySlice items ((page - 1) * per_page) (page * per_page),
            ⟨page, per_page, items.length,
             (items.length + per_page - 1) / per_page,
             decide (page < ((items.length + per_page - 1) / per_page : Nat)),
             decide (page > 1)⟩⟩)) := by
  constructor
  · rintro rfl pg
    rfl
  · intro hne
    have hlen : 1 ≤ items.length := by
      cases items with
      | nil => exact absurd rfl hne
      | cons a t => simp
    have hdm := Nat.div_add_mod (items.length + per_page - 1) per_page
    rw [Nat.mul_comm] at hdm
    have hmlt : (items.length + per_page - 1) % per_page < per_page :=
      Nat.mod_lt _ (by omega)
    refine ⟨⟨?_, ?_, ?_⟩, ?_, ?_⟩
    · rw [Nat.one_le_div_iff (by omega)]
      omega
    · omega
    · omega
    · intro hgt
      refine ⟨"Page " ++ toString page ++ " exceeds total pages (" ++
        toString ((items.length + per_page - 1) / per_page) ++ ")", ?_⟩
      unfold paginate
      rw [if_neg (by omega), if_pos (by exact_mod_cast hgt)]
    · intro hle
      have harith : page * (per_page : Int) =
          (page - 1) * per_page + per_page := by ring
      rw [harith]
      unfold paginate
      rw [if_neg (by omega), if_neg (by omega)]

theorem claim_paginate_witness :
    paginate (List.range 25) 3 10 true =
      .ok ⟨[20, 21, 22, 23, 24], ⟨3, 10, 25, 3, false, true⟩⟩ ∧
    paginate ([] : List Nat) 7 10 true =
      .ok ⟨[], ⟨1, 10, 0, 1, false, false⟩⟩ := by
  constructor
  · have h := ((claim_paginate (List.range 25) 3 10 (by decide)).2
      (by decide)).2.2 (by decide)
    rw [h]
    rfl
  · exact (claim_paginate ([] : List Nat) 3 10 (by decide)).1 rfl 7

/-! ### C9: page-number validation -/

/-- Modelled from the claim's words: a value "denotes a positive integer"
when it is an integer ≥ 1, or a string that Python int() reads as an
integer ≥ 1 and that contains no dot; floats and non-numeric objects never
qualify. -/
def denotesPositiveInt : PageArg → Option Int
  | .int n => if 1 ≤ n then some n else none
  | .str s =>
    match pyIntOfStr s with
    | some n => if 1 ≤ n ∧ ¬ s.data.contains '.' then some n else none
    | none => none
  | _ => none

theorem mem_dropWhile_of_not {p : α → Bool} {c : α} {l : List α}
    (hc : c ∈ l) (hp : p c = false) : c ∈ l.dropWhile p := by
  induction l with
  | nil => simp at hc
  | cons a t ih =>
    rw [List.dropWhile_cons]
    by_cases ha : p a
    · rw [if_pos ha]
      rcases List.mem_cons.mp hc with rfl | h
      · rw [hp] at ha; simp at ha
      · exact ih h
    · rw [if_neg ha]
      exact hc

theorem mem_stripL_of_not_ws {c : Char} {l : List Char}
    (hc : c ∈ l) (hws : isWs c = false) : c ∈ stripL l := by
  unfold stripL
  rw [List.mem_reverse]
  refine mem_dropWhile_of_not ?_ hws
  rw [List.mem_reverse]
  exact mem_dropWhile_of_not hc hws

theorem digitsTail_chars : ∀ cs, digitsTail cs = true →
    ∀ c ∈ cs, c.isDigit = true ∨ c = '_'
  | [], _, c, hc => absurd hc (List.not_mem_nil c)
  | c0 :: cs, h, c, hc => by
    unfold digitsTail at h
    by_cases h0 : c0 = '_'
    · rw [if_pos h0] at h
      cases cs with
      | nil => simp at h
      | cons c2 cs2 =>
        rw [Bool.and_eq_true] at h
        rcases List.mem_cons.mp hc with rfl | hc2
        · exact Or.inr h0
        · rcases List.mem_cons.mp hc2 with rfl | hc3
          · exact Or.inl h.1
          · exact digitsTail_chars cs2 h.2 c hc3
    · rw [if_neg h0, Bool.and_eq_true] at h
      rcases List.mem_cons.mp hc with rfl | hc2
      · exact Or.inl h.1
      · exact digitsTail_chars cs h.2 c hc2

theorem digitsOK_chars {cs : List Char} (h : digitsOK cs = true) :
    ∀ c ∈ cs, c.isDigit = true ∨ c = '_' := by
  cases cs with
  | nil => simp [digitsOK] at h
  | cons c1 t =>
    rw [digitsOK, Bool.and_eq_true] at h
    intro c hc
    rcases List.mem_cons.mp hc with rfl | hc2
    · exact Or.inl h.1
    · exact digitsTail_chars t h.2 c hc2

/-- A string Python int() accepts contains no dot: the explicit dot check in
validate_page_number can never fire on a successfully converted string. -/
theorem pyIntOfStr_no_dot {s : String} {n : Int} (h : pyIntOfStr s = some n) :
    s.data.contains '.' = false := by
  suffices hnd : '.' ∉ s.data by
    cases hb : s.data.contains '.' with
    | false => rfl
    | true => exact absurd (by simpa using hb) hnd
  intro hmem
  have hmem2 : '.' ∈ stripL s.data := mem_stripL_of_not_ws hmem (by decide)
  unfold pyIntOfStr at h
  rcases hcs : stripL s.data with _ | ⟨c, rest⟩
  · rw [hcs] at hmem2
    exact absurd hmem2 (List.not_mem_nil _)
  · rw [hcs] at h hmem2
    simp only [pyIntOfChars] at h
    have hdigits : ∀ t, digitsOK t = true → '.' ∈ t → False := by
      intro t hok hin
      rcases digitsOK_chars hok '.' hin with hd | hd
      · simp at hd
      · simp at hd
    by_cases hc1 : c = '+'
    · subst hc1
      rw [if_pos rfl] at h
      cases hok : digitsOK rest with
      | false => rw [hok] at h; simp at h
      | true =>
        rcases List.mem_cons.mp hmem2 with hdc | hin
        · exact absurd hdc (by decide)
        · exact hdigits rest hok hin
    · by_cases hc2 : c = '-'
      · subst hc2
        rw [if_neg (by decide), if_pos rfl] at h
        cases hok : digitsOK rest with
        | false => rw [hok] at h; simp at h
        | true =>
          rcases List.mem_cons.mp hmem2 with hdc | hin
          · exact absurd hdc (by decide)
          · exact hdigits rest hok hin
      · rw [if_neg hc1, if_neg hc2] at h
        cases hok : digitsOK (c :: rest) with
        | false => rw [hok] at h; simp at h
        | true => exact hdigits _ hok hmem2

/-- C9: page-number validation accepts a value, returning it as an integer,
exactly when it denotes a positive integer in the claim's sense; dot-bearing
strings are additionally unreachable through a successful int() conversion. -/
theorem claim_page_validation (a : PageArg) (k : Int) :
    (validate_page_number a = .ok k ↔ denotesPositiveInt a = some k) ∧
    (∀ s, a = .str s → ∀ n, pyIntOfStr s = some n → s.data.contains '.' = false) := by
  constructor
  · cases a with
    | int n =>
      by_cases h : n < 1
      · simp only [validate_page_number, denotesPositiveInt, if_pos h,
          if_neg (by omega : ¬ 1 ≤ n)]
        constructor <;> (intro hx; exact absurd hx (by simp))
      · simp only [validate_page_number, denotesPositiveInt, if_neg h,
          if_pos (by omega : 1 ≤ n)]
        constructor <;> (intro hx; injection hx with hx; rw [hx])
    | float =>
      constructor <;> (intro hx; exact absurd hx (by simp [validate_page_number,
        denotesPositiveInt]))
    | str s =>
      cases hp : pyIntOfStr s with
      | none =>
        simp only [validate_page_number, denotesPositiveInt, hp]
        constructor <;> (intro hx; exact absurd hx (by simp))
      | some n =>
        have hdot := pyIntOfStr_no_dot hp
        by_cases h : n < 1
        · simp only [validate_page_number, denotesPositiveInt, hp, if_pos h,
            if_neg (by omega : ¬ (1 ≤ n ∧ ¬ s.data.contains '.' = true))]
          constructor <;> (intro hx; exact absurd hx (by simp))
        · simp only [validate_page_number, denotesPositiveInt, hp, if_neg h,
            hdot, Bool.false_eq_true, not_false_eq_true, and_true, if_false,
            if_pos (by omega : (1 : Int) ≤ n)]
          constructor <;> (intro hx; injection hx with hx; rw [hx])
    | noneVal =>
      constructor <;> (intro hx; exact absurd hx (by simp [validate_page_number,
        denotesPositiveInt]))
    | otherVal =>
      constructor <;> (intro hx; exact absurd hx (by simp [validate_page_number,
        denotesPositiveInt]))
  · rintro s rfl n hn
    exact pyIntOfStr_no_dot hn

theorem claim_page_validation_witness :
    validate_page_number (.str " 23 ") = .ok 23 ∧
    (" 23 ").data.contains '.' = false := by
  constructor
  · exact (claim_page_validation (.str " 23 ") 23).1.mpr (by decide)
  · exact (claim_page_validation (.str " 23 ") 23).2 " 23 " rfl 23 (by decide)

/-! ### C3: find_root termination, absence and cycle defense -/

/-- The stored entries whose key was not yet visited — the measure that
bounds the find_thread_root walk. -/
def notVisited (m : EmailMap) (visited : List String) : Nat :=
  (m.filter (fun p => !visited.contains p.1)).length

theorem filter_length_mono {p q : α → Bool}
    (himp : ∀ x, q x = true → p x = true) (l : List α) :
    (l.filter q).length ≤ (l.filter p).length := by
  induction l with
  | nil => exact Nat.le_refl 0
  | cons a t ih =>
    rw [List.filter_cons, List.filter_cons]
    cases hq : q a with
    | true =>
      rw [himp a hq]
      simpa using ih
    | false =>
      cases hp : p a with
      | true =>
        rw [if_neg Bool.false_ne_true, if_pos rfl]
        simp only [List.length_cons]
        omega
      | false => exact ih

theorem filter_length_lt {p q : α → Bool}
    (himp : ∀ x, q x = true → p x = true) {l : List α} {x : α}
    (hx : x ∈ l) (hpx : p x = true) (hqx : q x = false) :
    (l.filter q).length < (l.filter p).length := by
  induction l with
  | nil => simp at hx
  | cons a t ih =>
    rw [List.filter_cons, List.filter_cons]
    rcases List.mem_cons.mp hx with rfl | hxt
    · have hmono := filter_length_mono himp t
      rw [hqx, hpx, if_neg Bool.false_ne_true, if_pos rfl]
      simp only [List.length_cons]
      omega
    · cases hq : q a with
      | true =>
        rw [himp a hq]
        simpa using ih hxt
      | false =>
        cases hp : p a with
        | true =>
          simp only [List.length_cons]
          exact Nat.lt_succ_of_le (Nat.le_of_lt (ih hxt))
        | false => exact ih hxt

theorem get_by_id_mem {m : EmailMap} {i : String} {e : Email}
    (h : get_by_id m i = some e) : ∃ q, q ∈ m ∧ q.1 = i ∧ q.2 = e := by
  unfold get_by_id at h
  cases hf : m.find? (fun p => p.1 == i) with
  | none => rw [hf] at h; simp at h
  | some q =>
    rw [hf] at h
    exact ⟨q, List.mem_of_find?_eq_some hf, find?_fst hf, by simpa using h⟩

theorem rootStep_some_inv {m : EmailMap} {cur : Email} {visited : List String}
    {parent : Email} {vis2 : List String}
    (h : rootStep m cur visited = some (parent, vis2)) :
    ∃ pid, cur.is_response_to = some pid ∧ pid ∉ visited ∧
      get_by_id m pid = some parent ∧ vis2 = pid :: visited := by
  unfold rootStep at h
  obtain ⟨pid, hirt, hf⟩ := Option.bind_eq_some.mp h
  by_cases hv : pid ∈ visited
  · rw [if_pos hv] at hf
    simp at hf
  · rw [if_neg hv] at hf
    obtain ⟨par, hg, hpv⟩ := Option.map_eq_some'.mp hf
    injection hpv with h1 h2
    exact ⟨pid, hirt, hv, by rw [hg, h1], h2.symm⟩

theorem rootStep_decrease {m : EmailMap} {cur : Email} {visited : List String}
    {parent : Email} {vis2 : List String}
    (h : rootStep m cur visited = some (parent, vis2)) :
    notVisited m vis2 < notVisited m visited := by
  obtain ⟨pid, _, hv, hg, rfl⟩ := rootStep_some_inv h
  obtain ⟨q, hqm, hq1, _⟩ := get_by_id_mem hg
  refine filter_length_lt ?_ hqm ?_ ?_
  · intro x hx
    simp only [Bool.not_eq_true'] at hx ⊢
    simp only [List.contains_cons] at hx
    rcases Bool.or_eq_false_iff.mp hx with ⟨_, h2⟩
    exact h2
  · simp only [Bool.not_eq_true']
    rw [← Bool.not_eq_true]
    intro hcon
    exact hv (by rw [← hq1]; exact List.elem_iff.mp hcon)
  · simp only [Bool.not_eq_true', List.contains_cons]
    rw [hq1]
    simp

theorem findRootAux_succ (m : EmailMap) :
    ∀ n (cur : Email) (visited : List String), notVisited m visited ≤ n →
      findRootAux m (n + 1) cur visited = findRootAux m n cur visited := by
  intro n
  induction n with
  | zero =>
    intro cur visited h0
    show findRootAux m 1 cur visited = cur
    unfold findRootAux
    cases hs : rootStep m cur visited with
    | none => rfl
    | some pv =>
      exfalso
      obtain ⟨parent, vis2⟩ := pv
      have := rootStep_decrease hs
      omega
  | succ n ih =>
    intro cur visited h
    unfold findRootAux
    cases hs : rootStep m cur visited with
    | none => rfl
    | some pv =>
      obtain ⟨parent, vis2⟩ := pv
      exact ih parent vis2 (by have := rootStep_decrease hs; omega)

theorem findRootAux_ge (m : EmailMap) (cur : Email) (visited : List String)
    (n k : Nat) (h : notVisited m visited ≤ n) :
    findRootAux m (n + k) cur visited = findRootAux m n cur visited := by
  induction k with
  | zero => rfl
  | succ k ih =>
    rw [show n + (k + 1) = (n + k) + 1 from rfl,
      findRootAux_succ m (n + k) cur visited (by omega), ih]

/-- A parent-pointer cycle through the store, as a set of stored ids each of
whose records points back into the set. -/
def CycleSet (m : EmailMap) (C : List String) : Prop :=
  ∀ j ∈ C, ∃ e p, get_by_id m j = some e ∧ e.is_response_to = some p ∧ p ∈ C

theorem findRootAux_cycle (m : EmailMap) (hwf : ∀ q ∈ m, q.1 = q.2.id)
    (C : List String) (hC : CycleSet m C) :
    ∀ n (cur : Email) (visited : List String), cur.id ∈ C →
      get_by_id m cur.id = some cur → (findRootAux m n cur visited).id ∈ C := by
  intro n
  induction n with
  | zero => intro cur visited hcur _; exact hcur
  | succ n ih =>
    intro cur visited hcur hg
    unfold findRootAux
    cases hs : rootStep m cur visited with
    | none => exact hcur
    | some pv =>
      obtain ⟨parent, vis2⟩ := pv
      obtain ⟨pid, hirt, _, hgp, _⟩ := rootStep_some_inv hs
      obtain ⟨e, p, hge, hirte, hpC⟩ := hC cur.id hcur
      have hec : e = cur := by rw [hg] at hge; injection hge with hge; rw [hge]
      have hpidp : pid = p := by
        rw [hec] at hirte
        rw [hirte] at hirt
        injection hirt with hirt
        rw [hirt]
      have hparid : parent.id = pid := by
        obtain ⟨q, hqm, hq1, hq2⟩ := get_by_id_mem hgp
        rw [← hq2, ← hwf q hqm, hq1]
      exact ih parent vis2 (by rw [hparid, hpidp]; exact hpC)
        (by rw [hparid]; exact hgp)

/-- C3: find_thread_root returns absent exactly when the starting id is not
stored; its fuelled loop is stable at `m.length` iterations (one step per
stored message suffices — termination even on cycles); and when the starting
id lies on a parent-pointer cycle the returned root belongs to that cycle. -/
theorem claim_find_root (m : EmailMap) (email_id : String) (hwf : WFMap m) :
    (find_thread_root m email_id = none ↔ get_by_id m email_id = none) ∧
    (∀ e, get_by_id m email_id = some e → ∀ k,
      findRootAux m (m.length + k) e [e.id] =
        findRootAux m m.length e [e.id]) ∧
    (∀ C : List String, email_id ∈ C → CycleSet m C →
      ∃ r, find_thread_root m email_id = some r ∧ r.id ∈ C) := by
  refine ⟨?_, ?_, ?_⟩
  · unfold find_thread_root
    cases hg : get_by_id m email_id with
    | none => simp
    | some e => simp
  · intro e _ k
    exact findRootAux_ge m e [e.id] m.length k (List.length_filter_le _ _)
  · intro C hmem hC
    obtain ⟨e, p, hg, hirt, hpC⟩ := hC email_id hmem
    have hid : e.id = email_id := by
      obtain ⟨q, hqm, hq1, hq2⟩ := get_by_id_mem hg
      rw [← hq2, ← hwf.2 q hqm, hq1]
    refine ⟨findRootAux m m.length e [e.id], ?_, ?_⟩
    · unfold find_thread_root
      rw [hg]
    · exact findRootAux_cycle m hwf.2 C hC m.length e [e.id]
        (by rw [hid]; exact hmem) (by rw [hid]; exact hg)

def tsW : String := "2024-01-01T00:00:01Z"

def idA : String := "00000000-0000-4000-8000-00000000000a"

def idB : String := "00000000-0000-4000-8000-00000000000b"

def idC : String := "00000000-0000-4000-8000-00000000000c"

/-- A two-element parent-pointer cycle: A replies to B, B replies to A. -/
def cycA : Email := ⟨["alice"], "bob", "s", "c", idA, tsW, some idB, [], []⟩

def cycB : Email := ⟨["alice"], "bob", "s", "c", idB, tsW, some idA, [], []⟩

def mCyc : EmailMap := [(idA, cycA), (idB, cycB)]

theorem claim_find_root_witness :
    WFMap mCyc ∧ ∃ r, find_thread_root mCyc idA = some r ∧ r.id ∈ [idA, idB] := by
  have hwf : WFMap mCyc := by
    constructor
    · decide
    · decide
  refine ⟨hwf, (claim_find_root mCyc idA hwf).2.2 [idA, idB] (by decide) ?_⟩
  intro j hj
  rcases List.mem_cons.mp hj with rfl | hj2
  · exact ⟨cycA, idB, rfl, rfl, by decide⟩
  · rcases List.mem_cons.mp hj2 with rfl | hj3
    · exact ⟨cycB, idA, rfl, rfl, by decide⟩
    · exact absurd hj3 (List.not_mem_nil _)

/-! ### C4: descendant discovery computes the least fixed point -/

theorem WF_get_all_ids_nodup {m : EmailMap} (hwf : WFMap m) :
    ((get_all m).map Email.id).Nodup := by
  have h1 : (get_all m).map Email.id = m.map (·.1) := by
    unfold get_all
    rw [List.map_map]
    exact List.map_congr_left (fun q hq => (hwf.2 q hq).symm)
  rw [h1]
  exact hwf.1

theorem eq_of_mem_get_all_id {m : EmailMap} (hwf : WFMap m) {x y : Email}
    (hx : x ∈ get_all m) (hy : y ∈ get_all m) (hid : x.id = y.id) : x = y :=
  List.inj_on_of_nodup_map (WF_get_all_ids_nodup hwf) hx hy hid

theorem find?_of_mem_nodup {m : EmailMap} (hnd : (m.map (·.1)).Nodup)
    {q : String × Email} (hq : q ∈ m) :
    m.find? (fun p => p.1 == q.1) = some q := by
  induction m with
  | nil => simp at hq
  | cons a t ih =>
    rcases List.mem_cons.mp hq with rfl | hqt
    · exact List.find?_cons_of_pos _ (by simp)
    · rw [List.map_cons] at hnd
      have hne : ¬ (a.1 == q.1) = true := by
        simp only [beq_iff_eq]
        intro hcon
        exact (List.nodup_cons.mp hnd).1
          (hcon ▸ List.mem_map_of_mem (·.1) hqt)
      have hstep : List.find? (fun p => p.1 == q.1) (a :: t) =
          List.find? (fun p => p.1 == q.1) t := List.find?_cons_of_neg t hne
      rw [hstep]
      exact ih (List.nodup_cons.mp hnd).2 hqt

theorem get_by_id_of_mem {m : EmailMap} (hwf : WFMap m) {e : Email}
    (he : e ∈ get_all m) : get_by_id m e.id = some e := by
  obtain ⟨q, hq, rfl⟩ := List.mem_map.mp he
  unfold get_by_id
  rw [← hwf.2 q hq, find?_of_mem_nodup hwf.1 hq]
  rfl

/-- The loop invariant of find_thread_descendants: the root id is collected,
everything collected is in the thread, and the record list tracks the id set
over the stored emails. -/
def DescInv (m : EmailMap) (root_id : String) (ids : List String)
    (acc : List Email) : Prop :=
  root_id ∈ ids ∧
  (∀ i ∈ ids, InThread m root_id i) ∧
  (∀ e ∈ acc, e ∈ get_all m ∧ InThread m root_id e.id) ∧
  (∀ e ∈ get_all m, e.id ∈ ids → e ∈ acc)

theorem irtMem_true_iff {irt : Option String} {ids : List String} :
    irtMem irt ids = true ↔ ∃ p, irt = some p ∧ p ∈ ids := by
  cases irt with
  | none => simp [irtMem]
  | some p => simp [irtMem]

theorem descPass_spec {m : EmailMap} {root_id : String} (hwf : WFMap m) :
    ∀ (rest : List Email) (ids : List String) (acc : List Email) (ch : Bool),
    (∀ e ∈ rest, e ∈ get_all m) → DescInv m root_id ids acc →
    DescInv m root_id (descPass ids acc ch rest).1 (descPass ids acc ch rest).2.1 ∧
    (∀ i ∈ ids, i ∈ (descPass ids acc ch rest).1) ∧
    ((descPass ids acc ch rest).2.2 = false →
      (descPass ids acc ch rest).1 = ids ∧
      (descPass ids acc ch rest).2.1 = acc ∧ ch = false) ∧
    (ch = false → (descPass ids acc ch rest).2.2 = true →
      ∃ x ∈ get_all m, x.id ∉ ids ∧ x.id ∈ (descPass ids acc ch rest).1) ∧
    ((descPass ids acc ch rest).2.2 = false →
      ∀ e ∈ rest, e.id ∈ ids ∨ irtMem e.is_response_to ids = false) := by
  intro rest
  induction rest with
  | nil =>
    intro ids acc ch _ hinv
    refine ⟨hinv, fun i hi => hi, fun hf => ⟨rfl, rfl, hf⟩, fun h1 h2 => ?_,
      fun _ e he => absurd he (List.not_mem_nil e)⟩
    have h3 : ch = true := h2
    rw [h1] at h3
    simp at h3
  | cons e rest ih =>
    intro ids acc ch hsub hinv
    obtain ⟨hroot, hids, hacc, htrack⟩ := hinv
    have hemem : e ∈ get_all m := hsub e (List.mem_cons_self e rest)
    by_cases hcond : (!ids.contains e.id && irtMem e.is_response_to ids) = true
    · have hunf : descPass ids acc ch (e :: rest) =
          descPass (e.id :: ids) (acc ++ [e]) true rest := by
        simp only [descPass]
        rw [if_pos hcond]
      obtain ⟨hnotin, hirt⟩ := (Bool.and_eq_true _ _) ▸ hcond
      have hnotin2 : e.id ∉ ids := by
        simp only [Bool.not_eq_true'] at hnotin
        intro hcon
        have hc1 : ids.contains e.id = true := List.elem_iff.mpr hcon
        rw [hc1] at hnotin
        simp at hnotin
      obtain ⟨p, hp, hpin⟩ := irtMem_true_iff.mp hirt
      have hth : InThread m root_id e.id := .step e p hemem hp (hids p hpin)
      have hinv2 : DescInv m root_id (e.id :: ids) (acc ++ [e]) := by
        refine ⟨List.mem_cons_of_mem _ hroot, ?_, ?_, ?_⟩
        · intro i hi
          rcases List.mem_cons.mp hi with rfl | hi2
          · exact hth
          · exact hids i hi2
        · intro x hx
          rcases List.mem_append.mp hx with hx1 | hx2
          · exact hacc x hx1
          · rw [List.mem_singleton.mp hx2]
            exact ⟨hemem, hth⟩
        · intro x hxall hxid
          rcases List.mem_cons.mp hxid with hxe | hxid2
          · rw [List.mem_append]
            right
            rw [eq_of_mem_get_all_id hwf hxall hemem hxe]
            simp
          · exact List.mem_append.mpr (Or.inl (htrack x hxall hxid2))
      have hrec := ih (e.id :: ids) (acc ++ [e]) true
        (fun x hx => hsub x (List.mem_cons_of_mem _ hx)) hinv2
      rw [hunf]
      refine ⟨hrec.1, ?_, ?_, ?_, ?_⟩
      · intro i hi
        exact hrec.2.1 i (List.mem_cons_of_mem _ hi)
      · intro hfalse
        obtain ⟨_, _, hch⟩ := hrec.2.2.1 hfalse
        simp at hch
      · intro _ _
        exact ⟨e, hemem, hnotin2,
          hrec.2.1 e.id (List.mem_cons_self _ _)⟩
      · intro hfalse
        obtain ⟨_, _, hch⟩ := hrec.2.2.1 hfalse
        simp at hch
    · have hunf : descPass ids acc ch (e :: rest) = descPass ids acc ch rest := by
        simp only [descPass]
        rw [if_neg hcond]
      have hrec := ih ids acc ch
        (fun x hx => hsub x (List.mem_cons_of_mem _ hx)) ⟨hroot, hids, hacc, htrack⟩
      rw [hunf]
      refine ⟨hrec.1, hrec.2.1, hrec.2.2.1, hrec.2.2.2.1, ?_⟩
      · intro hfalse x hx
        rcases List.mem_cons.mp hx with rfl | hx2
        · have hcf : (!ids.contains x.id && irtMem x.is_response_to ids) = false :=
            Bool.eq_false_iff.mpr hcond
          rcases Bool.and_eq_false_iff.mp hcf with h1 | h2
          · left
            rw [Bool.not_eq_false'] at h1
            exact List.elem_iff.mp h1
          · right
            exact h2
        · exact hrec.2.2.2.2 hfalse x hx2

theorem contains_iff_mem {a : String} {l : List String} :
    l.contains a = true ↔ a ∈ l :=
  List.elem_iff

theorem not_contains_iff {a : String} {l : List String} :
    (!l.contains a) = true ↔ a ∉ l := by
  rw [Bool.not_eq_true']
  constructor
  · intro h hmem
    rw [contains_iff_mem.mpr hmem] at h
    simp at h
  · intro h
    cases hc : l.contains a with
    | false => rfl
    | true => exact absurd (contains_iff_mem.mp hc) h

theorem descLoop_spec {m : EmailMap} {root_id : String} (hwf : WFMap m) :
    ∀ (fuel : Nat) (ids : List String) (acc : List Email),
    DescInv m root_id ids acc →
    ((get_all m).filter (fun e => !ids.contains e.id)).length < fuel →
    DescInv m root_id (descLoop (get_all m) fuel ids acc).1
      (descLoop (get_all m) fuel ids acc).2 ∧
    (∀ e ∈ get_all m, e.id ∈ (descLoop (get_all m) fuel ids acc).1 ∨
      irtMem e.is_response_to (descLoop (get_all m) fuel ids acc).1 = false) := by
  intro fuel
  induction fuel with
  | zero =>
    intro ids acc _ hlt
    exact absurd hlt (Nat.not_lt_zero _)
  | succ n ih =>
    intro ids acc hinv hlt
    have hps := descPass_spec hwf (get_all m) ids acc false (fun _ he => he) hinv
    cases hch : (descPass ids acc false (get_all m)).2.2 with
    | false =>
      have hunf : descLoop (get_all m) (n + 1) ids acc =
          ((descPass ids acc false (get_all m)).1,
           (descPass ids acc false (get_all m)).2.1) := by
        simp only [descLoop]
        rw [hch, if_neg Bool.false_ne_true]
      obtain ⟨hids_eq, hacc_eq, _⟩ := hps.2.2.1 hch
      rw [hunf]
      constructor
      · rw [hids_eq, hacc_eq]
        exact hinv
      · intro e he
        rw [hids_eq]
        exact hps.2.2.2.2 hch e he
    | true =>
      have hunf : descLoop (get_all m) (n + 1) ids acc =
          descLoop (get_all m) n (descPass ids acc false (get_all m)).1
            (descPass ids acc false (get_all m)).2.1 := by
        simp only [descLoop]
        rw [hch, if_pos rfl]
      rw [hunf]
      refine ih _ _ hps.1 ?_
      obtain ⟨x, hxall, hxnot, hxin⟩ := hps.2.2.2.1 rfl hch
      have hmono := hps.2.1
      have hlt2 : ((get_all m).filter
            (fun e => !(descPass ids acc false (get_all m)).1.contains e.id)).length <
          ((get_all m).filter (fun e => !ids.contains e.id)).length := by
        refine filter_length_lt ?_ hxall ?_ ?_
        · intro y hy
          rw [not_contains_iff] at hy ⊢
          intro hcon
          exact hy (hmono y.id hcon)
        · exact not_contains_iff.mpr hxnot
        · cases hc : (!(descPass ids acc false (get_all m)).1.contains x.id) with
          | false => rfl
          | true => exact absurd hxin (not_contains_iff.mp hc)
      omega

/-- Membership characterization of find_thread_descendants: exactly the
stored records whose id lies in the inductively generated thread id set. -/
theorem descendants_mem_iff (m : EmailMap) (root_id : String)
    (hwf : WFMap m) :
    ∀ e, e ∈ find_thread_descendants m root_id ↔
      e ∈ get_all m ∧ InThread m root_id e.id := by
  have hinv0 : DescInv m root_id [root_id]
      (match get_by_id m root_id with | some r => [r] | none => []) := by
    cases hg : get_by_id m root_id with
    | none =>
      refine ⟨List.mem_singleton_self _, ?_, ?_, ?_⟩
      · intro i hi
        rw [List.mem_singleton.mp hi]
        exact .base
      · intro e he
        exact absurd he (List.not_mem_nil e)
      · intro e heall heid
        exfalso
        have hge := get_by_id_of_mem hwf heall
        rw [List.mem_singleton.mp heid, hg] at hge
        exact absurd hge (by simp)
    | some r =>
      obtain ⟨q, hqm, hq1, hq2⟩ := get_by_id_mem hg
      have hrmem : r ∈ get_all m := by
        rw [← hq2]
        exact List.mem_map_of_mem _ hqm
      have hrid : r.id = root_id := by
        rw [← hq2, ← hwf.2 q hqm, hq1]
      refine ⟨List.mem_singleton_self _, ?_, ?_, ?_⟩
      · intro i hi
        rw [List.mem_singleton.mp hi]
        exact .base
      · intro e he
        rw [List.mem_singleton.mp he]
        exact ⟨hrmem, by rw [hrid]; exact .base⟩
      · intro e heall heid
        have : e.id = r.id := by rw [List.mem_singleton.mp heid, hrid]
        rw [List.mem_singleton]
        exact eq_of_mem_get_all_id hwf heall hrmem this
  have hfd : find_thread_descendants m root_id =
      (descLoop (get_all m) ((get_all m).length + 1) [root_id]
        (match get_by_id m root_id with | some r => [r] | none => [])).2 := rfl
  have hloop := descLoop_spec hwf ((get_all m).length + 1) [root_id]
    (match get_by_id m root_id with | some r => [r] | none => []) hinv0
    (Nat.lt_succ_of_le (List.length_filter_le _ _))
  have hidsf : ∀ i, InThread m root_id i →
      i ∈ (descLoop (get_all m) ((get_all m).length + 1) [root_id]
        (match get_by_id m root_id with | some r => [r] | none => [])).1 := by
    intro i hi
    induction hi with
    | base => exact hloop.1.1
    | step e' p he' hp' _ ih' =>
      rcases hloop.2 e' he' with h | h
      · exact h
      · exfalso
        rw [hp'] at h
        simp only [irtMem] at h
        rw [contains_iff_mem.mpr ih'] at h
        simp at h
  intro e
  rw [hfd]
  constructor
  · intro he
    exact hloop.1.2.2.1 e he
  · rintro ⟨heall, hth⟩
    exact hloop.1.2.2.2 e heall (hidsf e.id hth)

/-- C4: find_thread_descendants returns exactly the stored records whose ids
lie in the least set containing root_id and closed under adding records whose
isResponseTo is already inside, and it includes the stored root itself. -/
theorem claim_find_descendants (m : EmailMap) (root_id : String)
    (hwf : WFMap m) :
    (∀ e, e ∈ find_thread_descendants m root_id ↔
      e ∈ get_all m ∧ InThread m root_id e.id) ∧
    (∀ r, get_by_id m root_id = some r →
      r ∈ find_thread_descendants m root_id) := by
  refine ⟨descendants_mem_iff m root_id hwf, ?_⟩
  intro r hg
  obtain ⟨q, hqm, hq1, hq2⟩ := get_by_id_mem hg
  refine (descendants_mem_iff m root_id hwf r).mpr
    ⟨by rw [← hq2]; exact List.mem_map_of_mem _ hqm, ?_⟩
  have hrid : r.id = root_id := by rw [← hq2, ← hwf.2 q hqm, hq1]
  rw [hrid]
  exact .base

/-- The spec scenario: A is the root, B replies to A, C replies to B; B is
soft-deleted for alice. -/
def chA : Email := ⟨["alice"], "bob", "s", "c", idA,
  "2024-01-01T00:00:01Z", none, [], []⟩

def chB : Email := ⟨["alice"], "bob", "s", "c", idB,
  "2024-01-01T00:00:02Z", some idA, ["alice"], ["alice"]⟩

def chC : Email := ⟨["alice"], "bob", "s", "c", idC,
  "2024-01-01T00:00:03Z", some idB, [], []⟩

def mChain : EmailMap := [(idA, chA), (idB, chB), (idC, chC)]

theorem claim_find_descendants_witness :
    WFMap mChain ∧ chC ∈ find_thread_descendants mChain idA := by
  have hwf : WFMap mChain := ⟨by decide, by decide⟩
  refine ⟨hwf, ((claim_find_descendants mChain idA hwf).1 chC).mpr
    ⟨by decide, ?_⟩⟩
  exact .step chC idB (by decide) rfl (.step chB idA (by decide) rfl .base)

/-! ### C5: thread building -/

theorem mem_insertDesc {x e : Email} : ∀ l : List Email,
    x ∈ insertDesc e l ↔ x = e ∨ x ∈ l
  | [] => by simp [insertDesc]
  | y :: t => by
    unfold insertDesc
    by_cases h : e.timestamp ≤ y.timestamp
    · rw [if_pos h]
      rw [List.mem_cons, List.mem_cons, mem_insertDesc t]
      tauto
    · rw [if_neg h]
      rw [List.mem_cons, List.mem_cons]

theorem sorted_insertDesc {e : Email} : ∀ l : List Email,
    List.Pairwise (fun a b => b.timestamp ≤ a.timestamp) l →
    List.Pairwise (fun a b => b.timestamp ≤ a.timestamp) (insertDesc e l)
  | [], _ => by simp [insertDesc]
  | y :: t, h => by
    unfold insertDesc
    obtain ⟨hy, ht⟩ := List.pairwise_cons.mp h
    by_cases hle : e.timestamp ≤ y.timestamp
    · rw [if_pos hle]
      refine List.pairwise_cons.mpr ⟨?_, sorted_insertDesc t ht⟩
      intro b hb
      rcases (mem_insertDesc t).mp hb with rfl | hbt
      · exact hle
      · exact hy b hbt
    · rw [if_neg hle]
      have hye : y.timestamp ≤ e.timestamp := le_of_not_le hle
      refine List.pairwise_cons.mpr ⟨?_, h⟩
      intro b hb
      rcases List.mem_cons.mp hb with rfl | hbt
      · exact hye
      · exact le_trans (hy b hbt) hye

theorem mem_sortfold {x : Email} : ∀ (l acc : List Email),
    x ∈ l.foldl (fun acc e => insertDesc e acc) acc ↔ x ∈ acc ∨ x ∈ l := by
  intro l
  induction l with
  | nil => intro acc; simp
  | cons e t ih =>
    intro acc
    rw [List.foldl_cons, ih, mem_insertDesc, List.mem_cons]
    tauto

theorem mem_sortDescByTimestamp {x : Email} {l : List Email} :
    x ∈ sortDescByTimestamp l ↔ x ∈ l := by
  unfold sortDescByTimestamp
  rw [mem_sortfold]
  simp

theorem sorted_sortfold : ∀ (l acc : List Email),
    List.Pairwise (fun a b => b.timestamp ≤ a.timestamp) acc →
    List.Pairwise (fun a b => b.timestamp ≤ a.timestamp)
      (l.foldl (fun acc e => insertDesc e acc) acc) := by
  intro l
  induction l with
  | nil => intro acc h; exact h
  | cons e t ih =>
    intro acc h
    rw [List.foldl_cons]
    exact ih _ (sorted_insertDesc acc h)

theorem sorted_sortDescByTimestamp (l : List Email) :
    List.Pairwise (fun a b => b.timestamp ≤ a.timestamp)
      (sortDescByTimestamp l) :=
  sorted_sortfold l [] List.Pairwise.nil

/-- C5 (amended): build_thread returns a not-found pair on an unknown id;
otherwise it returns the requested email and the thread of its root with the
email itself removed, regardless of deletedBy (the membership condition never
mentions it), sorted by timestamp descending.  Ties keep the discovery order
of the descendant scan, not the store insertion order (see counterexample). -/
theorem claim_build_thread (m : EmailMap) (email_id : String) (hwf : WFMap m) :
    (get_by_id m email_id = none → build_thread m email_id = (none, [])) ∧
    (∀ req, get_by_id m email_id = some req →
      (build_thread m email_id).1 = some req ∧
      (∀ r, find_thread_root m email_id = some r →
        ∀ x, x ∈ (build_thread m email_id).2 ↔
          x ∈ get_all m ∧ InThread m r.id x.id ∧ x.id ≠ email_id) ∧
      List.Pairwise (fun a b => b.timestamp ≤ a.timestamp)
        (build_thread m email_id).2) := by
  constructor
  · intro hg
    unfold build_thread
    rw [hg]
  · intro req hg
    have hfr : find_thread_root m email_id =
        some (findRootAux m m.length req [req.id]) := by
      unfold find_thread_root
      rw [hg]
    have hbt : build_thread m email_id = (some req,
        sortDescByTimestamp
          ((find_thread_descendants m (findRootAux m m.length req [req.id]).id).filter
            (fun e => e.id != email_id))) := by
      unfold build_thread
      rw [hg, hfr]
    refine ⟨by rw [hbt], ?_, ?_⟩
    · intro r hr x
      rw [hfr] at hr
      injection hr with hr
      rw [hbt]
      show x ∈ sortDescByTimestamp _ ↔ _
      rw [mem_sortDescByTimestamp, List.mem_filter, hr,
        descendants_mem_iff m _ hwf x]
      constructor
      · rintro ⟨⟨h1, h2⟩, h3⟩
        exact ⟨h1, h2, by simpa using h3⟩
      · rintro ⟨h1, h2, h3⟩
        exact ⟨⟨h1, h2⟩, by simpa using h3⟩
    · rw [hbt]
      exact sorted_sortDescByTimestamp _

theorem claim_build_thread_witness :
    WFMap mChain ∧ (build_thread mChain idC).1 = some chC ∧
    chB ∈ (build_thread mChain idC).2 ∧
    List.Pairwise (fun a b => b.timestamp ≤ a.timestamp)
      (build_thread mChain idC).2 := by
  have hwf : WFMap mChain := ⟨by decide, by decide⟩
  have h := (claim_build_thread mChain idC hwf).2 chC rfl
  refine ⟨hwf, h.1, ?_, h.2.2⟩
  refine (h.2.1 chA rfl chB).mpr ⟨by decide, ?_, by decide⟩
  exact .step chB idA (by decide) rfl .base

/-- The tie-order counterexample: store order is A, B, C with equal
timestamps, B replying to C and C replying to A.  The discovery scan finds C
before B, so build_thread(A) returns [C, B] although the store insertion
order of these two records is [B, C]. -/
def tieA : Email := ⟨["alice"], "bob", "s", "c", idA, tsW, none, [], []⟩

def tieB : Email := ⟨["alice"], "bob", "s", "c", idB, tsW, some idC, [], []⟩

def tieC : Email := ⟨["alice"], "bob", "s", "c", idC, tsW, some idA, [], []⟩

def mTie : EmailMap := [(idA, tieA), (idB, tieB), (idC, tieC)]

theorem claim_build_thread_counterexample :
    get_all mTie = [tieA, tieB, tieC] ∧
    tieB.timestamp = tieC.timestamp ∧
    (build_thread mTie idA).2 = [tieC, tieB] ∧
    [tieC, tieB] ≠ [tieB, tieC] := by
  refine ⟨rfl, rfl, ?_, by decide⟩
  have h1 : (build_thread mTie idA).2 = sortDescByTimestamp [tieC, tieB] := rfl
  rw [h1]
  show insertDesc tieB (insertDesc tieC []) = [tieC, tieB]
  rw [show insertDesc tieC [] = [tieC] from rfl]
  unfold insertDesc
  have hle : tieB.timestamp ≤ tieC.timestamp := le_refl _
  rw [if_pos hle]
  rfl

/-! ### C1: the reachable-store invariant -/

theorem normListAux_mem : ∀ (seen l : List String) (x : String),
    x ∈ normListAux seen l → normalize_name x = x ∧ x ≠ ""
  | _, [], x, hx => absurd hx (List.not_mem_nil x)
  | seen, n :: ns, x, hx => by
    unfold normListAux at hx
    by_cases hc : normalize_name n ≠ "" ∧ normalize_name n ∉ seen
    · rw [if_pos hc] at hx
      rcases List.mem_cons.mp hx with rfl | hx2
      · exact ⟨normalize_name_idem n, hc.1⟩
      · exact normListAux_mem _ ns x hx2
    · rw [if_neg hc] at hx
      exact normListAux_mem seen ns x hx

theorem normalize_name_list_mem {l : List String} {x : String}
    (hx : x ∈ normalize_name_list l) : normalize_name x = x ∧ x ≠ "" :=
  normListAux_mem [] l x hx

theorem make_emailInv {id : String} {to_ : List String}
    {from_ subject content timestamp : String} {irt : Option String}
    {rb db : List String} {e : Email}
    (h : Email.make id to_ from_ subject content timestamp irt rb db = some e) :
    EmailInv e := by
  simp only [Email.make] at h
  by_cases h1 : normalize_name_list to_ = []
  · rw [if_pos h1] at h
    simp at h
  · rw [if_neg h1] at h
    by_cases h2 : normalize_name from_ = ""
    · rw [if_pos h2] at h
      simp at h
    · rw [if_neg h2] at h
      have hbody : e = ⟨normalize_name_list to_, normalize_name from_, subject,
          content, id, timestamp, irt, normalize_name_list rb,
          normalize_name_list db⟩ := by
        by_cases hu : irtValid irt = true
        · rw [if_pos hu] at h
          injection h with h
          rw [← h]
        · rw [if_neg hu] at h
          simp at h
      rw [hbody]
      refine ⟨h1, ?_, normalize_name_idem from_, h2, ?_, ?_⟩
      · intro n hn
        exact normalize_name_list_mem hn
      · intro n hn
        exact (normalize_name_list_mem hn).1
      · intro n hn
        exact (normalize_name_list_mem hn).1

theorem storeInv_nil : StoreInv ([] : EmailMap) :=
  ⟨List.nodup_nil, fun p hp => absurd hp (List.not_mem_nil p)⟩

theorem storeInv_dictInsert {m : EmailMap} {v : Email}
    (hs : StoreInv m) (hv : EmailInv v) : StoreInv (dictInsert m v.id v) := by
  unfold dictInsert
  by_cases hc : (m.find? (fun p => p.1 == v.id)).isSome
  · rw [if_pos hc]
    constructor
    · have hkeys : (m.map (fun p => if p.1 == v.id then (p.1, v) else p)).map
          (·.1) = m.map (·.1) := by
        rw [List.map_map]
        refine List.map_congr_left (fun p _ => ?_)
        by_cases h : p.1 = v.id <;> simp [h]
      rw [hkeys]
      exact hs.1
    · intro p hp
      obtain ⟨q, hq, rfl⟩ := List.mem_map.mp hp
      by_cases h : (q.1 == v.id) = true
      · rw [if_pos h]
        exact ⟨by simpa using h, hv⟩
      · rw [if_neg h]
        exact hs.2 q hq
  · rw [if_neg hc]
    constructor
    · rw [List.map_append, List.nodup_append]
      refine ⟨hs.1, List.nodup_singleton _, ?_⟩
      intro k hk hk2
      simp only [List.map_cons, List.map_nil, List.mem_singleton] at hk2
      rw [hk2] at hk
      obtain ⟨q, hq, hq1⟩ := List.mem_map.mp hk
      exact absurd (List.find?_isSome.mpr ⟨q, hq, by simpa using hq1⟩) hc
    · intro p hp
      rcases List.mem_append.mp hp with hp1 | hp2
      · exact hs.2 p hp1
      · rw [List.mem_singleton.mp hp2]
        exact ⟨rfl, hv⟩

theorem emailInv_markReadBy {e : Email} (h : EmailInv e) (n : String) :
    EmailInv (e.markReadBy n) := by
  unfold Email.markReadBy
  by_cases hc : normalize_name n ∈ e.read_by
  · rw [if_pos hc]
    exact h
  · rw [if_neg hc]
    obtain ⟨h1, h2, h3, h4, h5, h6⟩ := h
    refine ⟨h1, h2, h3, h4, ?_, h6⟩
    intro x hx
    rcases List.mem_append.mp hx with hx1 | hx2
    · exact h5 x hx1
    · rw [List.mem_singleton.mp hx2]
      exact normalize_name_idem n

theorem emailInv_markDeletedBy {e : Email} (h : EmailInv e) (n : String) :
    EmailInv (e.markDeletedBy n) := by
  unfold Email.markDeletedBy
  by_cases hc : normalize_name n ∈ e.deleted_by
  · rw [if_pos hc]
    exact h
  · rw [if_neg hc]
    obtain ⟨h1, h2, h3, h4, h5, h6⟩ := h
    refine ⟨h1, h2, h3, h4, h5, ?_⟩
    intro x hx
    rcases List.mem_append.mp hx with hx1 | hx2
    · exact h6 x hx1
    · rw [List.mem_singleton.mp hx2]
      exact normalize_name_idem n

theorem storeInv_update {m : EmailMap} {e : Email} (hs : StoreInv m)
    (he : EmailInv e) : StoreInv (update m e).2 := by
  unfold update
  by_cases hc : (m.find? (fun p => p.1 == e.id)).isSome
  · rw [if_pos hc]
    exact storeInv_dictInsert hs he
  · rw [if_neg hc]
    exact hs

theorem storeInv_delete {m : EmailMap} (hs : StoreInv m) (email_id : String) :
    StoreInv (deleteById m email_id).2 := by
  unfold deleteById
  by_cases hc : (m.find? (fun p => p.1 == email_id)).isSome
  · rw [if_pos hc]
    constructor
    · exact hs.1.sublist (List.Sublist.map _ (List.filter_sublist m))
    · intro p hp
      exact hs.2 p (List.mem_of_mem_filter hp)
  · rw [if_neg hc]
    exact hs

theorem storeInv_markRead {m : EmailMap} (hs : StoreInv m)
    (email_id viewer : String) : StoreInv (mark_as_read m email_id viewer).2 := by
  unfold mark_as_read
  cases hg : get_by_id m email_id with
  | none => exact hs
  | some e =>
    have he : EmailInv e := by
      obtain ⟨q, hq, _, hq2⟩ := get_by_id_mem hg
      exact hq2 ▸ (hs.2 q hq).2
    exact storeInv_update hs (emailInv_markReadBy he _)

theorem storeInv_markDeleted {m : EmailMap} (hs : StoreInv m)
    (email_id viewer : String) :
    StoreInv (mark_as_deleted m email_id viewer).2 := by
  unfold mark_as_deleted
  cases hg : get_by_id m email_id with
  | none => exact hs
  | some e =>
    have he : EmailInv e := by
      obtain ⟨q, hq, _, hq2⟩ := get_by_id_mem hg
      exact hq2 ▸ (hs.2 q hq).2
    exact storeInv_update hs (emailInv_markDeletedBy he _)

theorem processValidate_storeInv {now : String} {st : EmailMap × JValue}
    {fs : List (String × JValue)} {st' : EmailMap × JValue}
    (h : processValidate now st fs = .ok st') (hs : StoreInv st.1) :
    StoreInv st'.1 := by
  simp only [processValidate] at h
  by_cases hv : ¬ (validate_email_data fs).1 = true
  · rw [if_pos hv] at h
    cases hq : quarAppend st.2 (mkQuarantineEntry (.obj fs)
        (joinReasons (validate_email_data fs).2.1) now) with
    | error e => rw [hq] at h; simp [exBind] at h
    | ok q =>
      rw [hq] at h
      simp only [exBind] at h
      injection h with h
      rw [← h]
      exact hs
  · rw [if_neg hv] at h
    cases hm : makeFromFixed (validate_email_data fs).2.2 with
    | some e =>
      rw [hm] at h
      simp only [Option.elim] at h
      injection h with h
      rw [← h]
      exact storeInv_dictInsert hs (make_emailInv hm)
    | none =>
      rw [hm] at h
      simp only [Option.elim] at h
      cases hq : quarAppend st.2 (mkQuarantineEntry (.obj fs)
          "failed to create Email object" now) with
      | error e => rw [hq] at h; simp [exBind] at h
      | ok q =>
        rw [hq] at h
        simp only [exBind] at h
        injection h with h
        rw [← h]
        exact hs

theorem processRecord_storeInv {records : List JValue} {now : String}
    {st : EmailMap × JValue} {r : JValue} {st' : EmailMap × JValue}
    (h : processRecord records now st r = .ok st') (hs : StoreInv st.1) :
    StoreInv st'.1 := by
  cases r with
  | obj fs =>
    simp only [processRecord] at h
    cases hid : jget fs "id" with
    | some v =>
      rw [hid] at h
      simp only [Option.elim] at h
      by_cases hdup : (truthy (some v) && idCount records v > 1) = true
      · rw [if_pos hdup] at h
        cases hq : quarAppend st.2 (mkQuarantineEntry (.obj fs)
            ("duplicate id: " ++ pyStr v) now) with
        | error e => rw [hq] at h; simp [exBind] at h
        | ok q =>
          rw [hq] at h
          simp only [exBind] at h
          injection h with h
          rw [← h]
          exact hs
      · rw [if_neg hdup] at h
        exact processValidate_storeInv h hs
    | none =>
      rw [hid] at h
      simp only [Option.elim] at h
      exact processValidate_storeInv h hs
  | str s => simp [processRecord] at h
  | num n => simp [processRecord] at h
  | bool b => simp [processRecord] at h
  | null => simp [processRecord] at h
  | arr xs => simp [processRecord] at h

theorem foldRecords_storeInv {records : List JValue} {now : String} :
    ∀ (l : List JValue) (st st' : EmailMap × JValue),
    foldRecords records now st l = .ok st' →
    StoreInv st.1 → StoreInv st'.1
  | [], st, st', h, hs => by
    simp only [foldRecords] at h
    injection h with h
    rw [← h]
    exact hs
  | r :: l, st, st', h, hs => by
    simp only [foldRecords] at h
    cases hp : processRecord records now st r with
    | error e => rw [hp] at h; simp [exBind] at h
    | ok st1 =>
      rw [hp] at h
      simp only [exBind] at h
      exact foldRecords_storeInv l st1 st' h (processRecord_storeInv hp hs)

theorem initializeStorage_storeInv {now : String} {ef qf : FileRead}
    {res : InitResult} (h : initializeStorage now ef qf = .ok res) :
    StoreInv res.emails := by
  unfold initializeStorage at h
  cases hl : loadEmailsRecords ef with
  | error e => rw [hl] at h; simp [exBind] at h
  | ok records =>
    rw [hl] at h
    simp only [exBind] at h
    unfold processRecords at h
    cases hfp : firstPassCheck records with
    | error e => rw [hfp] at h; simp [exBind] at h
    | ok u =>
      rw [hfp] at h
      simp only [exBind] at h
      cases hfold : foldRecords records now ([], loadQuarantined qf) records with
      | error e => rw [hfold] at h; simp [exBind] at h
      | ok st =>
        rw [hfold] at h
        simp only [exBind] at h
        have hres : res.emails = st.1 := by
          injection h with h
          rw [← h]
        rw [hres]
        exact foldRecords_storeInv records ([], loadQuarantined qf) st hfold
          storeInv_nil

/-- C1 (amended): every store reachable from initialize() through
create/update/delete/mark-read/mark-deleted satisfies: map keys are unique
and equal each record's id, `to` is non-empty with normalized non-empty
members, `from` is normalized and non-empty, and every member of
readBy/deletedBy is normalized.  (Non-emptiness of readBy/deletedBy members
fails on the code: marking with a blank viewer appends the empty string —
see the counterexample.) -/
theorem claim_store_invariant (m : EmailMap) (h : Reachable m) : StoreInv m := by
  induction h with
  | init now ef qf res hinit => exact initializeStorage_storeInv hinit
  | create hm he ih =>
    obtain ⟨id, to_, from_, subject, content, ts, irt, rb, db, hmk⟩ := he
    exact storeInv_dictInsert ih (make_emailInv hmk)
  | update hm he ih =>
    obtain ⟨id, to_, from_, subject, content, ts, irt, rb, db, hmk⟩ := he
    exact storeInv_update ih (make_emailInv hmk)
  | delete hm email_id ih => exact storeInv_delete ih email_id
  | markRead hm email_id viewer ih => exact storeInv_markRead ih email_id viewer
  | markDeleted hm email_id viewer ih =>
    exact storeInv_markDeleted ih email_id viewer

theorem claim_store_invariant_witness :
    StoreInv (mark_as_read (create ([] : EmailMap) chA) idA "ZOE").2 := by
  apply claim_store_invariant
  exact .markRead (.create (.init "t" .absent .absent ⟨[], .arr []⟩ rfl)
    ⟨idA, ["Alice"], "Bob", "s", "c", tsW, none, [], [], by decide⟩) idA "ZOE"

/-- The claimed invariant additionally demands every readBy member be
non-empty; marking a message read with a whitespace-only viewer name reaches
a store whose single record has the empty string in readBy. -/
theorem claim_store_invariant_counterexample :
    Reachable (mark_as_read (create ([] : EmailMap) chA) idA " ").2 ∧
    ∃ p ∈ (mark_as_read (create ([] : EmailMap) chA) idA " ").2,
      "" ∈ p.2.read_by := by
  constructor
  · exact .markRead (.create (.init "t" .absent .absent ⟨[], .arr []⟩ rfl)
      ⟨idA, ["Alice"], "Bob", "s", "c", tsW, none, [], [], by decide⟩) idA " "
  · exact ⟨(idA, { chA with read_by := [""] }), by decide, by decide⟩

/-! ### The duplicate-id grouping pass of initialize() -/

theorem exBind_ok {α β : Type} {x : Except InitError α}
    {f : α → Except InitError β} {b : β} (h : exBind x f = .ok b) :
    ∃ a, x = .ok a ∧ f a = .ok b := by
  cases x with
  | error e => simp [exBind] at h
  | ok a => exact ⟨a, rfl, h⟩

theorem quarAppend_ok {q entry q' : JValue} (h : quarAppend q entry = .ok q') :
    ∃ xs, q = .arr xs ∧ q' = .arr (xs ++ [entry]) := by
  cases q with
  | arr xs =>
    refine ⟨xs, rfl, ?_⟩
    simp only [quarAppend] at h
    injection h with h
    exact h.symm
  | str s => simp [quarAppend] at h
  | num n => simp [quarAppend] at h
  | bool b => simp [quarAppend] at h
  | null => simp [quarAppend] at h
  | obj fs => simp [quarAppend] at h

theorem foldRecords_append (records : List JValue) (now : String) :
    ∀ (l1 l2 : List JValue) (st : EmailMap × JValue),
    foldRecords records now st (l1 ++ l2) =
      exBind (foldRecords records now st l1)
        (fun st1 => foldRecords records now st1 l2)
  | [], l2, st => by simp only [List.nil_append, foldRecords, exBind]
  | r :: l1, l2, st => by
    simp only [List.cons_append, foldRecords]
    cases hp : processRecord records now st r with
    | error e => simp only [exBind]
    | ok st1 =>
      simp only [exBind]
      exact foldRecords_append records now l1 l2 st1

/-- The quarantine value is a list containing the given entry. -/
def QuarHas (q entry : JValue) : Prop := ∃ xs, q = .arr xs ∧ entry ∈ xs

theorem quarAppend_quarHas {q e q' entry : JValue}
    (h : quarAppend q e = .ok q') (hq : QuarHas q entry) : QuarHas q' entry := by
  obtain ⟨xs, hq1, hq2⟩ := quarAppend_ok h
  obtain ⟨ys, hy1, hy2⟩ := hq
  rw [hq1] at hy1
  injection hy1 with hy1
  have hx : entry ∈ xs := by rw [hy1]; exact hy2
  exact ⟨xs ++ [e], hq2, List.mem_append_left _ hx⟩

theorem processValidate_quarHas {now : String} {st st' : EmailMap × JValue}
    {fs : List (String × JValue)} {entry : JValue}
    (h : processValidate now st fs = .ok st') (hq : QuarHas st.2 entry) :
    QuarHas st'.2 entry := by
  simp only [processValidate] at h
  by_cases hv : ¬ (validate_email_data fs).1 = true
  · rw [if_pos hv] at h
    cases hqa : quarAppend st.2 (mkQuarantineEntry (.obj fs)
        (joinReasons (validate_email_data fs).2.1) now) with
    | error e => rw [hqa] at h; simp [exBind] at h
    | ok q =>
      rw [hqa] at h
      simp only [exBind] at h
      injection h with h
      rw [← h]
      exact quarAppend_quarHas hqa hq
  · rw [if_neg hv] at h
    cases hm : makeFromFixed (validate_email_data fs).2.2 with
    | some e =>
      rw [hm] at h
      simp only [Option.elim] at h
      injection h with h
      rw [← h]
      exact hq
    | none =>
      rw [hm] at h
      simp only [Option.elim] at h
      cases hqa : quarAppend st.2 (mkQuarantineEntry (.obj fs)
          "failed to create Email object" now) with
      | error e => rw [hqa] at h; simp [exBind] at h
      | ok q =>
        rw [hqa] at h
        simp only [exBind] at h
        injection h with h
        rw [← h]
        exact quarAppend_quarHas hqa hq

theorem processRecord_quarHas {records : List JValue} {now : String}
    {st st' : EmailMap × JValue} {r : JValue} {entry : JValue}
    (h : processRecord records now st r = .ok st') (hq : QuarHas st.2 entry) :
    QuarHas st'.2 entry := by
  cases r with
  | obj fs =>
    simp only [processRecord] at h
    cases hid : jget fs "id" with
    | some v =>
      rw [hid] at h
      simp only [Option.elim] at h
      by_cases hdup : (truthy (some v) && idCount records v > 1) = true
      · rw [if_pos hdup] at h
        cases hqa : quarAppend st.2 (mkQuarantineEntry (.obj fs)
            ("duplicate id: " ++ pyStr v) now) with
        | error e => rw [hqa] at h; simp [exBind] at h
        | ok q =>
          rw [hqa] at h
          simp only [exBind] at h
          injection h with h
          rw [← h]
          exact quarAppend_quarHas hqa hq
      · rw [if_neg hdup] at h
        exact processValidate_quarHas h hq
    | none =>
      rw [hid] at h
      simp only [Option.elim] at h
      exact processValidate_quarHas h hq
  | str s => simp [processRecord] at h
  | num n => simp [processRecord] at h
  | bool b => simp [processRecord] at h
  | null => simp [processRecord] at h
  | arr xs => simp [processRecord] at h

theorem find?_fstJ {fs : List (String × JValue)} {k : String}
    {p : String × JValue} (h : fs.find? (fun q => q.1 == k) = some p) :
    p.1 = k := by
  have := List.find?_some h
  simpa using this

theorem find?_map_keyfixJ (f : String × JValue → String × JValue)
    (hf : ∀ p, (f p).1 = p.1) (fs : List (String × JValue)) (i : String) :
    (fs.map f).find? (fun p => p.1 == i) =
      (fs.find? (fun p => p.1 == i)).map f := by
  induction fs with
  | nil => rfl
  | cons a t ih =>
    rw [List.map_cons]
    by_cases h : a.1 = i
    · rw [List.find?_cons_of_pos (l := t) (by simpa using h),
        List.find?_cons_of_pos (l := t.map f) (by simp [hf a, h])]
      rfl
    · rw [List.find?_cons_of_neg (l := t) (by simpa using h),
        List.find?_cons_of_neg (l := t.map f) (by simp [hf a, h]), ih]

/-- A dict assignment to one key leaves every other key unchanged. -/
theorem jget_jset_ne (fs : List (String × JValue)) (k k' : String)
    (v : JValue) (hne : k' ≠ k) : jget (jset fs k v) k' = jget fs k' := by
  unfold jset
  by_cases hk : hasKey fs k = true
  · rw [if_pos hk]
    unfold jget
    rw [find?_map_keyfixJ (fun p => if p.1 == k then (p.1, v) else p)
      (fun p => by by_cases hp : p.1 = k <;> simp [hp])]
    cases hf : fs.find? (fun p => p.1 == k') with
    | none => rfl
    | some p =>
      have hp1 : p.1 = k' := find?_fstJ hf
      have hpne : ¬ p.1 = k := by rw [hp1]; exact hne
      simp [hpne]
  · rw [if_neg hk]
    rw [Bool.not_eq_true] at hk
    induction fs with
    | nil =>
      have hkk : (k == k') = false := by simp [Ne.symm hne]
      simp [jget, List.find?, hkk]
    | cons a t ih =>
      by_cases ha : a.1 = k'
      · simp only [List.cons_append, jget]
        rw [List.find?_cons_of_pos (l := t ++ [(k, v)]) (by simpa using ha),
          List.find?_cons_of_pos (l := t) (by simpa using ha)]
      · have ht : hasKey t k = false := by
          unfold hasKey jget at hk ⊢
          by_cases hak : a.1 = k
          · rw [List.find?_cons_of_pos (l := t) (by simpa using hak)] at hk
            simp at hk
          · rw [List.find?_cons_of_neg (l := t) (by simpa using hak)] at hk
            exact hk
        simp only [List.cons_append, jget] at ih ⊢
        rw [List.find?_cons_of_neg (l := t ++ [(k, v)]) (by simpa using ha),
          List.find?_cons_of_neg (l := t) (by simpa using ha)]
        exact ih ht

theorem jget_toFix_id (data : List (String × JValue)) :
    jget (toFix data).2 "id" = jget data "id" := by
  cases hg : jget data "to" with
  | none => simp [toFix, hg]
  | some v =>
    cases v with
    | arr xs =>
      simp only [toFix, hg]
      exact jget_jset_ne data "to" "id" _ (by decide)
    | str s => simp [toFix, hg]
    | num n => simp [toFix, hg]
    | bool b => simp [toFix, hg]
    | null => simp [toFix, hg]
    | obj fs => simp [toFix, hg]

theorem jget_fromFix_id (data fs : List (String × JValue)) :
    jget (fromFix data fs).2 "id" = jget fs "id" := by
  cases hg : jget data "from" with
  | none => simp [fromFix, hg]
  | some v =>
    cases v with
    | str s =>
      simp only [fromFix, hg]
      exact jget_jset_ne fs "from" "id" _ (by decide)
    | arr xs => simp [fromFix, hg]
    | num n => simp [fromFix, hg]
    | bool b => simp [fromFix, hg]
    | null => simp [fromFix, hg]
    | obj gs => simp [fromFix, hg]

theorem jget_subjFix_id (data fs : List (String × JValue)) :
    jget (subjFix data fs).2 "id" = jget fs "id" := by
  cases hg : jget data "subject" with
  | none => simp [subjFix, hg]
  | some v =>
    cases v with
    | str s =>
      simp only [subjFix, hg]
      exact jget_jset_ne fs "subject" "id" _ (by decide)
    | arr xs => simp [subjFix, hg]
    | num n => simp [subjFix, hg]
    | bool b => simp [subjFix, hg]
    | null => simp [subjFix, hg]
    | obj gs => simp [subjFix, hg]

theorem jget_contFix_id (data fs : List (String × JValue)) :
    jget (contFix data fs).2 "id" = jget fs "id" := by
  cases hg : jget data "content" with
  | none => simp [contFix, hg]
  | some v =>
    cases v with
    | str s =>
      simp only [contFix, hg]
      exact jget_jset_ne fs "content" "id" _ (by decide)
    | arr xs => simp [contFix, hg]
    | num n => simp [contFix, hg]
    | bool b => simp [contFix, hg]
    | null => simp [contFix, hg]
    | obj gs => simp [contFix, hg]

theorem jget_rbFix_id (data fs : List (String × JValue)) :
    jget (rbFix data fs).2 "id" = jget fs "id" := by
  cases hg : jget data "readBy" with
  | none =>
    simp only [rbFix, hg]
    exact jget_jset_ne fs "readBy" "id" _ (by decide)
  | some v =>
    cases v with
    | arr xs =>
      simp only [rbFix, hg]
      exact jget_jset_ne fs "readBy" "id" _ (by decide)
    | str s => simp [rbFix, hg]
    | num n => simp [rbFix, hg]
    | bool b => simp [rbFix, hg]
    | null => simp [rbFix, hg]
    | obj gs => simp [rbFix, hg]

theorem jget_dbFix_id (data fs : List (String × JValue)) :
    jget (dbFix data fs).2 "id" = jget fs "id" := by
  cases hg : jget data "deletedBy" with
  | none =>
    simp only [dbFix, hg]
    exact jget_jset_ne fs "deletedBy" "id" _ (by decide)
  | some v =>
    cases v with
    | arr xs =>
      simp only [dbFix, hg]
      exact jget_jset_ne fs "deletedBy" "id" _ (by decide)
    | str s => simp [dbFix, hg]
    | num n => simp [dbFix, hg]
    | bool b => simp [dbFix, hg]
    | null => simp [dbFix, hg]
    | obj gs => simp [dbFix, hg]

/-- Dropping the non-allowed fields keeps the `id` lookup: `id` is an allowed
field, and entries under other keys never answer an `id` lookup. -/
theorem jget_filter_allowed (fs : List (String × JValue)) :
    jget (fs.filter (fun p => p.1 ∈ allowedRecordFields)) "id" =
      jget fs "id" := by
  induction fs with
  | nil => rfl
  | cons a t ih =>
    by_cases ha : a.1 = "id"
    · have hmem : a.1 ∈ allowedRecordFields := by rw [ha]; decide
      rw [List.filter_cons, if_pos (by simpa using hmem)]
      unfold jget
      rw [List.find?_cons_of_pos (l := List.filter _ t) (by simpa using ha),
        List.find?_cons_of_pos (l := t) (by simpa using ha)]
    · rw [List.filter_cons]
      by_cases hmem : a.1 ∈ allowedRecordFields
      · rw [if_pos (by simpa using hmem)]
        unfold jget at ih ⊢
        rw [List.find?_cons_of_neg (l := List.filter _ t) (by simpa using ha),
          List.find?_cons_of_neg (l := t) (by simpa using ha)]
        exact ih
      · rw [if_neg (by simpa using hmem)]
        unfold jget at ih ⊢
        rw [List.find?_cons_of_neg (l := t) (by simpa using ha)]
        exact ih

theorem data_append (s t : String) : (s ++ t).data = s.data ++ t.data := rfl

/-- A record that passes validation has a string id that parses as a UUID,
and the repaired record keeps that id unchanged. -/
theorem validate_ok_fields {data : List (String × JValue)}
    (h : (validate_email_data data).1 = true) :
    ∃ s, jget data "id" = some (.str s) ∧ validate_uuid s = true ∧
      jget (validate_email_data data).2.2 "id" = some (.str s) := by
  by_cases hm : missingErrsOf data ≠ []
  · have h1 : (validate_email_data data).1 = false := by
      unfold validate_email_data; rw [if_pos hm]
    rw [h1] at h
    exact absurd h (by simp)
  · have h1 : (validate_email_data data).1 = (allErrs data).isEmpty := by
      unfold validate_email_data; rw [if_neg hm]
    have h22 : (validate_email_data data).2.2 =
        (fixed6 data).filter (fun p => p.1 ∈ allowedRecordFields) := by
      unfold validate_email_data; rw [if_neg hm]
    have herr : allErrs data = [] := by
      cases hE : allErrs data with
      | nil => rfl
      | cons a l => rw [h1, hE] at h; simp at h
    have hsplit := herr
    unfold allErrs at hsplit
    simp only [List.append_eq_nil] at hsplit
    obtain ⟨⟨⟨⟨⟨⟨⟨⟨hid0, _⟩, _⟩, _⟩, _⟩, _⟩, _⟩, _⟩, _⟩ := hsplit
    have hchain : jget ((fixed6 data).filter
        (fun p => p.1 ∈ allowedRecordFields)) "id" = jget data "id" := by
      rw [jget_filter_allowed]
      unfold fixed6 fixed5 fixed4 fixed3 fixed2 fixed1
      rw [jget_dbFix_id, jget_rbFix_id, jget_contFix_id, jget_subjFix_id,
        jget_fromFix_id, jget_toFix_id]
    cases hg : jget data "id" with
    | none =>
      simp only [idErrsOf, hg] at hid0
      exact absurd hid0 (by simp)
    | some v =>
      cases v with
      | str s =>
        simp only [idErrsOf, hg] at hid0
        by_cases hu : validate_uuid s = true
        · exact ⟨s, rfl, hu, by rw [h22, hchain, hg]⟩
        · rw [if_neg hu] at hid0
          exact absurd hid0 (by simp)
      | num n => simp only [idErrsOf, hg] at hid0; exact absurd hid0 (by simp)
      | bool b => simp only [idErrsOf, hg] at hid0; exact absurd hid0 (by simp)
      | null => simp only [idErrsOf, hg] at hid0; exact absurd hid0 (by simp)
      | arr xs => simp only [idErrsOf, hg] at hid0; exact absurd hid0 (by simp)
      | obj gs => simp only [idErrsOf, hg] at hid0; exact absurd hid0 (by simp)

/-- The Email built from the repaired record carries the repaired record's
raw id string. -/
theorem makeFromFixed_id {fixed : List (String × JValue)} {e : Email}
    (h : makeFromFixed fixed = some e) : e.id = asStr (jget fixed "id") := by
  simp only [makeFromFixed, Email.make] at h
  by_cases h1 : normalize_name_list (asStrList (jget fixed "to")) = []
  · rw [if_pos h1] at h; exact absurd h (by simp)
  · rw [if_neg h1] at h
    by_cases h2 : normalize_name (asStr (jget fixed "from")) = ""
    · rw [if_pos h2] at h; exact absurd h (by simp)
    · rw [if_neg h2] at h
      by_cases h3 : irtValid (asOptStr (jget fixed "isResponseTo")) = true
      · rw [if_pos h3] at h
        injection h with h
        rw [← h]
      · rw [if_neg h3] at h; exact absurd h (by simp)

theorem id_missing_mem {data : List (String × JValue)}
    (h : jget data "id" = none) :
    "missing required field: id" ∈ missingErrsOf data := by
  have hk : hasKey data "id" = false := by unfold hasKey; rw [h]; rfl
  unfold missingErrsOf
  refine List.mem_map.mpr ⟨"id", ?_, rfl⟩
  refine List.mem_filter.mpr ⟨by decide, ?_⟩
  simp [hk]

/-- A record whose raw id is missing fails validation. -/
theorem validate_fail_of_id_none {data : List (String × JValue)}
    (h : jget data "id" = none) : (validate_email_data data).1 = false := by
  have hm : missingErrsOf data ≠ [] := List.ne_nil_of_mem (id_missing_mem h)
  unfold validate_email_data
  rw [if_pos hm]

theorem idErrs_of_empty {data : List (String × JValue)}
    (h : jget data "id" = some (.str "")) :
    idErrsOf data = ["invalid UUID format for \x27id\x27: "] := by
  simp only [idErrsOf, h]
  rw [if_neg (by decide)]
  decide

/-- A record whose raw id is the empty string fails validation. -/
theorem validate_fail_of_id_empty {data : List (String × JValue)}
    (h : jget data "id" = some (.str "")) :
    (validate_email_data data).1 = false := by
  by_cases hm : missingErrsOf data ≠ []
  · unfold validate_email_data; rw [if_pos hm]
  · unfold validate_email_data
    rw [if_neg hm]
    show (allErrs data).isEmpty = false
    unfold allErrs
    rw [idErrs_of_empty h]
    rfl

/-- The reasons attached to a record whose raw id is missing or empty start
with a missing-field reason or with the invalid-id reason. -/
theorem falsy_reasons {data : List (String × JValue)}
    (h : jget data "id" = none ∨ jget data "id" = some (.str "")) :
    (∃ f rest, f ∈ requiredFields ∧ (validate_email_data data).2.1 =
      ("missing required field: " ++ f) :: rest) ∨
    (∃ rest, (validate_email_data data).2.1 =
      "invalid UUID format for \x27id\x27: " :: rest) := by
  by_cases hm : missingErrsOf data ≠ []
  · left
    have h21 : (validate_email_data data).2.1 = missingErrsOf data := by
      unfold validate_email_data; rw [if_pos hm]
    cases hfil : requiredFields.filter (fun f => ¬ hasKey data f) with
    | nil => exact absurd (by unfold missingErrsOf; rw [hfil]; rfl) hm
    | cons f rest' =>
      refine ⟨f, rest'.map (fun g => "missing required field: " ++ g), ?_, ?_⟩
      · exact List.mem_of_mem_filter (hfil ▸ List.mem_cons_self f rest')
      · rw [h21]; unfold missingErrsOf; rw [hfil]; rfl
  · right
    have hid : jget data "id" = some (.str "") := by
      cases h with
      | inr h' => exact h'
      | inl h' =>
        exact absurd (List.ne_nil_of_mem (id_missing_mem h')) hm
    have h21 : (validate_email_data data).2.1 = allErrs data := by
      unfold validate_email_data; rw [if_neg hm]
    rw [h21]
    unfold allErrs
    rw [idErrs_of_empty hid]
    exact ⟨_, rfl⟩

theorem joinReasons_data (x : String) (rest : List String) :
    ∃ t, (joinReasons (x :: rest)).data = x.data ++ t := by
  cases rest with
  | nil => exact ⟨[], (List.append_nil _).symm⟩
  | cons y ys =>
    refine ⟨("; " ++ joinReasons (y :: ys)).data, ?_⟩
    show ((x ++ "; ") ++ joinReasons (y :: ys)).data = _
    rw [data_append, data_append, data_append, List.append_assoc]

/-- The joined validation reasons of a record with a missing or empty id
never read as a duplicate-id reason: they start with the letter of a
missing-field or invalid-id reason, never with a `d`. -/
theorem reason_not_dup {data : List (String × JValue)}
    (h : jget data "id" = none ∨ jget data "id" = some (.str "")) :
    ∀ w : JValue, joinReasons (validate_email_data data).2.1 ≠
      "duplicate id: " ++ pyStr w := by
  intro w heq
  rcases falsy_reasons h with ⟨f, rest, _, h21⟩ | ⟨rest, h21⟩
  · rw [h21] at heq
    obtain ⟨t, ht⟩ := joinReasons_data ("missing required field: " ++ f) rest
    have hd := congrArg String.data heq
    rw [ht, data_append, data_append] at hd
    have hL := congrArg List.head? hd
    simp only [List.append_assoc, List.cons_append] at hL
    exact absurd hL (by simp [String.data])
  · rw [h21] at heq
    obtain ⟨t, ht⟩ := joinReasons_data "invalid UUID format for \x27id\x27: " rest
    have hd := congrArg String.data heq
    rw [ht, data_append] at hd
    have hL := congrArg List.head? hd
    simp only [List.cons_append] at hL
    exact absurd hL (by simp [String.data])

theorem foldRecords_quarHas {records : List JValue} {now : String}
    {entry : JValue} :
    ∀ (l : List JValue) (st st' : EmailMap × JValue),
    foldRecords records now st l = .ok st' →
    QuarHas st.2 entry → QuarHas st'.2 entry
  | [], st, st', h, hq => by
    simp only [foldRecords] at h
    injection h with h
    rw [← h]
    exact hq
  | r :: l, st, st', h, hq => by
    simp only [foldRecords] at h
    obtain ⟨st1, hp, hrest⟩ := exBind_ok h
    exact foldRecords_quarHas l st1 st' hrest (processRecord_quarHas hp hq)

/-- New live entries produced by one validate-and-store step carry the raw
string id of the record stored. -/
theorem processValidate_mem {now : String} {st st' : EmailMap × JValue}
    {fs : List (String × JValue)}
    (h : processValidate now st fs = .ok st') :
    ∀ p ∈ st'.1, p ∈ st.1 ∨ ∃ s, jget fs "id" = some (.str s) ∧ p.1 = s := by
  simp only [processValidate] at h
  by_cases hv : ¬ (validate_email_data fs).1 = true
  · rw [if_pos hv] at h
    cases hqa : quarAppend st.2 (mkQuarantineEntry (.obj fs)
        (joinReasons (validate_email_data fs).2.1) now) with
    | error e => rw [hqa] at h; simp [exBind] at h
    | ok q =>
      rw [hqa] at h
      simp only [exBind] at h
      injection h with h
      intro p hp
      rw [← h] at hp
      exact Or.inl hp
  · rw [if_neg hv] at h
    have hvt : (validate_email_data fs).1 = true := not_not.mp hv
    cases hm : makeFromFixed (validate_email_data fs).2.2 with
    | none =>
      rw [hm] at h
      simp only [Option.elim] at h
      cases hqa : quarAppend st.2 (mkQuarantineEntry (.obj fs)
          "failed to create Email object" now) with
      | error e => rw [hqa] at h; simp [exBind] at h
      | ok q =>
        rw [hqa] at h
        simp only [exBind] at h
        injection h with h
        intro p hp
        rw [← h] at hp
        exact Or.inl hp
    | some e =>
      rw [hm] at h
      simp only [Option.elim] at h
      injection h with h
      intro p hp
      rw [← h] at hp
      rcases mem_dictInsert hp with hk | hmem
      · right
        obtain ⟨s, hs1, _, hs3⟩ := validate_ok_fields hvt
        have hid : e.id = s := by rw [makeFromFixed_id hm, hs3]; rfl
        exact ⟨s, hs1, by rw [hk, hid]⟩
      · exact Or.inl hmem

/-- New live entries produced by one second-pass step come from the record
just processed, whose raw id failed the duplicate-group test. -/
theorem processRecord_mem {records : List JValue} {now : String}
    {st st' : EmailMap × JValue} {r : JValue}
    (h : processRecord records now st r = .ok st') :
    ∀ p ∈ st'.1, p ∈ st.1 ∨
      ∃ fs s, r = .obj fs ∧ jget fs "id" = some (.str s) ∧ p.1 = s ∧
        (truthy (some (JValue.str s)) &&
          idCount records (JValue.str s) > 1) = false := by
  cases r with
  | obj fs =>
    simp only [processRecord] at h
    cases hid : jget fs "id" with
    | some v =>
      rw [hid] at h
      simp only [Option.elim] at h
      by_cases hdup : (truthy (some v) && idCount records v > 1) = true
      · rw [if_pos hdup] at h
        cases hqa : quarAppend st.2 (mkQuarantineEntry (.obj fs)
            ("duplicate id: " ++ pyStr v) now) with
        | error e => rw [hqa] at h; simp [exBind] at h
        | ok q =>
          rw [hqa] at h
          simp only [exBind] at h
          injection h with h
          intro p hp
          rw [← h] at hp
          exact Or.inl hp
      · rw [if_neg hdup] at h
        intro p hp
        rcases processValidate_mem h p hp with hmem | ⟨s, hs1, hs2⟩
        · exact Or.inl hmem
        · right
          have hv : v = .str s := by
            rw [hid] at hs1
            exact Option.some_inj.mp hs1
          rw [hv] at hdup
          simp only [Bool.not_eq_true] at hdup
          exact ⟨fs, s, rfl, hs1, hs2, hdup⟩
    | none =>
      rw [hid] at h
      simp only [Option.elim] at h
      intro p hp
      rcases processValidate_mem h p hp with hmem | ⟨s, hs1, _⟩
      · exact Or.inl hmem
      · rw [hid] at hs1
        exact absurd hs1 (by simp)
  | str s => simp [processRecord] at h
  | num n => simp [processRecord] at h
  | bool b => simp [processRecord] at h
  | null => simp [processRecord] at h
  | arr xs => simp [processRecord] at h

theorem foldRecords_mem {records : List JValue} {now : String} :
    ∀ (l : List JValue) (st st' : EmailMap × JValue),
    foldRecords records now st l = .ok st' →
    ∀ p ∈ st'.1, p ∈ st.1 ∨
      ∃ fs s, JValue.obj fs ∈ l ∧ jget fs "id" = some (.str s) ∧ p.1 = s ∧
        (truthy (some (JValue.str s)) &&
          idCount records (JValue.str s) > 1) = false
  | [], st, st', h, p, hp => by
    simp only [foldRecords] at h
    injection h with h
    rw [← h] at hp
    exact Or.inl hp
  | r :: l, st, st', h, p, hp => by
    simp only [foldRecords] at h
    obtain ⟨st1, hpr, hrest⟩ := exBind_ok h
    rcases foldRecords_mem l st1 st' hrest p hp with
      h1 | ⟨fs, s, hmem, h2, h3, h4⟩
    · rcases processRecord_mem hpr p h1 with h2 | ⟨fs, s, hr, h3, h4, h5⟩
      · exact Or.inl h2
      · exact Or.inr ⟨fs, s, by rw [← hr]; exact List.mem_cons_self r l,
          h3, h4, h5⟩
    · exact Or.inr ⟨fs, s, List.mem_cons_of_mem r hmem, h2, h3, h4⟩

/-- A record of a truthy id that occurs more than once is quarantined with a
duplicate-id reason, and the live map is untouched by the step. -/
theorem processRecord_dup {records : List JValue} {now : String}
    {st st' : EmailMap × JValue} {fs : List (String × JValue)} {v : JValue}
    (hid : jget fs "id" = some v) (htr : truthy (some v) = true)
    (hcount : 1 < idCount records v)
    (h : processRecord records now st (.obj fs) = .ok st') :
    ∃ xs, st.2 = .arr xs ∧
      st'.2 = .arr (xs ++ [mkQuarantineEntry (.obj fs)
        ("duplicate id: " ++ pyStr v) now]) := by
  simp only [processRecord] at h
  rw [hid] at h
  simp only [Option.elim] at h
  have hcond : (truthy (some v) && idCount records v > 1) = true := by
    rw [htr, Bool.true_and]
    exact decide_eq_true hcount
  rw [if_pos hcond] at h
  cases hqa : quarAppend st.2 (mkQuarantineEntry (.obj fs)
      ("duplicate id: " ++ pyStr v) now) with
  | error e => rw [hqa] at h; simp [exBind] at h
  | ok q =>
    rw [hqa] at h
    simp only [exBind] at h
    injection h with h
    obtain ⟨xs, h1, h2⟩ := quarAppend_ok hqa
    exact ⟨xs, h1, by rw [← h]; exact h2⟩

/-- A record whose raw id is missing or empty escapes the duplicate group
and is quarantined with its own validation reasons. -/
theorem processRecord_falsy {records : List JValue} {now : String}
    {st st' : EmailMap × JValue} {fs : List (String × JValue)}
    (hid : jget fs "id" = none ∨ jget fs "id" = some (.str ""))
    (h : processRecord records now st (.obj fs) = .ok st') :
    ∃ xs, st.2 = .arr xs ∧
      st'.2 = .arr (xs ++ [mkQuarantineEntry (.obj fs)
        (joinReasons (validate_email_data fs).2.1) now]) := by
  have hval : (validate_email_data fs).1 = false := by
    cases hid with
    | inl h' => exact validate_fail_of_id_none h'
    | inr h' => exact validate_fail_of_id_empty h'
  have hpv : processValidate now st fs = .ok st' := by
    simp only [processRecord] at h
    cases hid with
    | inl h' =>
      rw [h'] at h
      simpa only [Option.elim] using h
    | inr h' =>
      rw [h'] at h
      simp only [Option.elim] at h
      have hc : (truthy (some (JValue.str "")) &&
          idCount records (JValue.str "") > 1) = false := by
        rw [show truthy (some (JValue.str "")) = false from rfl, Bool.false_and]
      rw [if_neg (by simp [hc])] at h
      exact h
  simp only [processValidate] at hpv
  rw [if_pos (by simp [hval])] at hpv
  cases hqa : quarAppend st.2 (mkQuarantineEntry (.obj fs)
      (joinReasons (validate_email_data fs).2.1) now) with
  | error e => rw [hqa] at hpv; simp [exBind] at hpv
  | ok q =>
    rw [hqa] at hpv
    simp only [exBind] at hpv
    injection hpv with hpv
    obtain ⟨xs, h1, h2⟩ := quarAppend_ok hqa
    exact ⟨xs, h1, by rw [← hpv]; exact h2⟩

theorem initializeStorage_ok_inv {now : String} {ef qf : FileRead}
    {res : InitResult} {records : List JValue}
    (hinit : initializeStorage now ef qf = .ok res)
    (hload : loadEmailsRecords ef = .ok records) :
    ∃ st, foldRecords records now ([], loadQuarantined qf) records = .ok st ∧
      res.emails = st.1 ∧ res.quarantined = st.2 := by
  unfold initializeStorage at hinit
  rw [hload] at hinit
  simp only [exBind] at hinit
  unfold processRecords at hinit
  cases hfp : firstPassCheck records with
  | error e => rw [hfp] at hinit; simp [exBind] at hinit
  | ok u =>
    rw [hfp] at hinit
    simp only [exBind] at hinit
    cases hfold : foldRecords records now ([], loadQuarantined qf) records with
    | error e => rw [hfold] at hinit; simp [exBind] at hinit
    | ok st =>
      rw [hfold] at hinit
      simp only [exBind] at hinit
      injection hinit with hinit
      exact ⟨st, rfl, by rw [← hinit], by rw [← hinit]⟩

/-- If some record of the input appends a fixed quarantine entry whenever it
is processed, that entry is in the final quarantine list. -/
theorem fold_entry_final {records : List JValue} {now : String}
    {st0 stf : EmailMap × JValue} {l : List JValue}
    {fs : List (String × JValue)} {entry : JValue}
    (hfold : foldRecords records now st0 l = .ok stf)
    (hmem : JValue.obj fs ∈ l)
    (hstep : ∀ st st', processRecord records now st (.obj fs) = .ok st' →
      ∃ xs, st.2 = .arr xs ∧ st'.2 = .arr (xs ++ [entry])) :
    ∃ xs, stf.2 = .arr xs ∧ entry ∈ xs := by
  obtain ⟨l1, l2, rfl⟩ := List.append_of_mem hmem
  rw [foldRecords_append] at hfold
  obtain ⟨st1, h1, h2⟩ := exBind_ok hfold
  simp only [foldRecords] at h2
  obtain ⟨st2, hp, hrest⟩ := exBind_ok h2
  obtain ⟨xs, hxs1, hxs2⟩ := hstep st1 st2 hp
  have hq : QuarHas st2.2 entry :=
    ⟨xs ++ [entry], hxs2, List.mem_append_right _ (List.mem_cons_self _ _)⟩
  exact foldRecords_quarHas l2 st2 stf hrest hq

/-- C2 (amended): the duplicate rule holds for records whose raw id is
truthy.  Every input record carrying a truthy id that occurs more than once
in the collection is quarantined with a duplicate-id reason, and no record
with that id survives into the live map.  (The unrestricted claim fails for
shared falsy ids — see the counterexample.) -/
theorem claim_duplicate_quarantine
    (now : String) (ef qf : FileRead) (records : List JValue)
    (res : InitResult) (fs : List (String × JValue)) (v : JValue)
    (hload : loadEmailsRecords ef = .ok records)
    (hinit : initializeStorage now ef qf = .ok res)
    (hmem : JValue.obj fs ∈ records)
    (hid : jget fs "id" = some v)
    (htr : truthy (some v) = true)
    (hcount : 1 < idCount records v) :
    (∃ xs, res.quarantined = .arr xs ∧
      mkQuarantineEntry (.obj fs) ("duplicate id: " ++ pyStr v) now ∈ xs) ∧
    ∀ p ∈ res.emails, JValue.str p.1 ≠ v := by
  obtain ⟨st, hfold, hres1, hres2⟩ := initializeStorage_ok_inv hinit hload
  constructor
  · obtain ⟨xs, h1, h2⟩ := fold_entry_final hfold hmem
      (fun st1 st2 hp => processRecord_dup hid htr hcount hp)
    exact ⟨xs, by rw [hres2]; exact h1, h2⟩
  · intro p hp heq
    rw [hres1] at hp
    rcases foldRecords_mem records ([], loadQuarantined qf) st hfold p hp with
      h0 | ⟨fs', s, _, _, hps, hguard⟩
    · simp at h0
    · have hv : v = .str s := by rw [← heq, hps]
      rw [hv] at htr hcount
      rw [htr, Bool.true_and] at hguard
      simp [hcount] at hguard

def dupFs1 : List (String × JValue) :=
  [("id", .str idA), ("to", .arr [.str "Alice"]), ("from", .str "Bob"),
   ("subject", .str "s"), ("content", .str "c"), ("timestamp", .str tsW)]

def dupFs2 : List (String × JValue) :=
  [("id", .str idA), ("to", .arr [.str "Alice"]), ("from", .str "Bob"),
   ("subject", .str "s"), ("content", .str "c2"), ("timestamp", .str tsW)]

def dupEF : FileRead :=
  .ok (.obj [("version", .num 1), ("emails", .arr [.obj dupFs1, .obj dupFs2])])

def dupRes : InitResult :=
  ⟨[], .arr [mkQuarantineEntry (.obj dupFs1) ("duplicate id: " ++ idA) "T",
    mkQuarantineEntry (.obj dupFs2) ("duplicate id: " ++ idA) "T"]⟩

theorem claim_duplicate_quarantine_witness :
    (∃ xs, dupRes.quarantined = .arr xs ∧
      mkQuarantineEntry (.obj dupFs1)
        ("duplicate id: " ++ pyStr (.str idA)) "T" ∈ xs) ∧
    ∀ p ∈ dupRes.emails, JValue.str p.1 ≠ .str idA :=
  claim_duplicate_quarantine "T" dupEF .absent [.obj dupFs1, .obj dupFs2]
    dupRes dupFs1 (.str idA) rfl rfl (List.mem_cons_self _ _) rfl rfl
    (by decide)

def falsyFs1 : List (String × JValue) :=
  [("id", .str ""), ("to", .arr [.str "Alice"]), ("from", .str "Bob"),
   ("subject", .str "s"), ("content", .str "c"), ("timestamp", .str tsW)]

def falsyFs1b : List (String × JValue) :=
  [("id", .str ""), ("to", .arr [.str "Alice"]), ("from", .str "Bob"),
   ("subject", .str "s"), ("content", .str "c2"), ("timestamp", .str tsW)]

def emptyPairEF : FileRead :=
  .ok (.obj [("version", .num 1),
    ("emails", .arr [.obj falsyFs1, .obj falsyFs1b])])

/-- Two raw records sharing the empty-string id are indeed both quarantined
and kept out of the live map, but their reasons are the per-record
invalid-UUID reason, not the duplicate-id reason the claim requires. -/
theorem claim_duplicate_quarantine_counterexample :
    jget falsyFs1 "id" = jget falsyFs1b "id" ∧
    initializeStorage "T" emptyPairEF .absent = .ok ⟨[],
      .arr [mkQuarantineEntry (.obj falsyFs1)
          "invalid UUID format for \x27id\x27: " "T",
        mkQuarantineEntry (.obj falsyFs1b)
          "invalid UUID format for \x27id\x27: " "T"]⟩ ∧
    "invalid UUID format for \x27id\x27: " ≠
      "duplicate id: " ++ pyStr (.str "") :=
  ⟨rfl, rfl, by decide⟩

/-- C10: records with a missing or empty raw id never join a duplicate
group: each is quarantined individually, its joined reason is never a
duplicate-id reason, and its reason list starts with its own missing-field
or invalid-id validation error. -/
theorem claim_falsy_id_grouping
    (now : String) (ef qf : FileRead) (records : List JValue)
    (res : InitResult) (fs : List (String × JValue))
    (hload : loadEmailsRecords ef = .ok records)
    (hinit : initializeStorage now ef qf = .ok res)
    (hmem : JValue.obj fs ∈ records)
    (hid : jget fs "id" = none ∨ jget fs "id" = some (.str "")) :
    ∃ xs, res.quarantined = .arr xs ∧
      mkQuarantineEntry (.obj fs)
        (joinReasons (validate_email_data fs).2.1) now ∈ xs ∧
      (∀ w, joinReasons (validate_email_data fs).2.1 ≠
        "duplicate id: " ++ pyStr w) ∧
      ((∃ f rest, f ∈ requiredFields ∧ (validate_email_data fs).2.1 =
          ("missing required field: " ++ f) :: rest) ∨
        (∃ rest, (validate_email_data fs).2.1 =
          "invalid UUID format for \x27id\x27: " :: rest)) := by
  obtain ⟨st, hfold, _, hres2⟩ := initializeStorage_ok_inv hinit hload
  obtain ⟨xs, h1, h2⟩ := fold_entry_final hfold hmem
    (fun st1 st2 hp => processRecord_falsy hid hp)
  exact ⟨xs, by rw [hres2]; exact h1, h2, reason_not_dup hid, falsy_reasons hid⟩

def falsyFs2 : List (String × JValue) :=
  [("to", .arr [.str "Alice"]), ("from", .str "Bob"),
   ("subject", .str "s"), ("content", .str "c"), ("timestamp", .str tsW)]

def falsyEF : FileRead :=
  .ok (.obj [("version", .num 1),
    ("emails", .arr [.obj falsyFs1, .obj falsyFs2])])

def falsyRes : InitResult :=
  ⟨[], .arr [mkQuarantineEntry (.obj falsyFs1)
      "invalid UUID format for \x27id\x27: " "T",
    mkQuarantineEntry (.obj falsyFs2) "missing required field: id" "T"]⟩

theorem claim_falsy_id_grouping_witness :
    ∃ xs, falsyRes.quarantined = .arr xs ∧
      mkQuarantineEntry (.obj falsyFs1)
        (joinReasons (validate_email_data falsyFs1).2.1) "T" ∈ xs ∧
      (∀ w, joinReasons (validate_email_data falsyFs1).2.1 ≠
        "duplicate id: " ++ pyStr w) ∧
      ((∃ f rest, f ∈ requiredFields ∧ (validate_email_data falsyFs1).2.1 =
          ("missing required field: " ++ f) :: rest) ∨
        (∃ rest, (validate_email_data falsyFs1).2.1 =
          "invalid UUID format for \x27id\x27: " :: rest)) :=
  claim_falsy_id_grouping "T" falsyEF .absent [.obj falsyFs1, .obj falsyFs2]
    falsyRes falsyFs1 rfl rfl (List.mem_cons_self _ _) (Or.inr rfl)

/-! ### Fatality of initialize() -/

/-- The message-document conditions under which loading raises
StorageInitializationError: parse failure, a non-object document, a missing
`version` field, or (under a well-formed version) a non-array `emails`
value.  An unrecognised version heals to an empty collection instead. -/
def docFatal : FileRead → Bool
  | .parseError => true
  | .absent => false
  | .ok (.obj fs) =>
    if ¬ hasKey fs "version" then true
    else if ¬ (validate_version (jget fs "version")).1 then false
    else
      match jget fs "emails" with
      | none => false
      | some (.arr _) => false
      | some _ => true
  | .ok _ => true

/-- The enumerated quarantine-document problems: parse failure, a non-object
document, missing `version` or `quarantined` keys, or a bad version. -/
def quarProblem : FileRead → Bool
  | .parseError => true
  | .absent => false
  | .ok (.obj fs) =>
    !hasKey fs "version" || !hasKey fs "quarantined" ||
      !(validate_version (jget fs "version")).1
  | .ok _ => true

theorem docFatal_load {ef : FileRead} (hf : docFatal ef = true) :
    ∃ msg, loadEmailsRecords ef = .error (.storageInitError msg) := by
  cases ef with
  | parseError => exact ⟨_, rfl⟩
  | absent => simp [docFatal] at hf
  | ok v =>
    cases v with
    | obj fs =>
      simp only [docFatal] at hf
      by_cases h1 : ¬ hasKey fs "version" = true
      · refine ⟨"emails.json has invalid structure: Missing \x27version\x27 field", ?_⟩
        simp only [loadEmailsRecords]
        rw [if_pos h1]
      · rw [if_neg h1] at hf
        by_cases h2 : ¬ (validate_version (jget fs "version")).1 = true
        · rw [if_pos h2] at hf
          simp at hf
        · rw [if_neg h2] at hf
          cases hg : jget fs "emails" with
          | none => simp [hg] at hf
          | some w =>
            cases w with
            | arr rs => simp [hg] at hf
            | str s =>
              refine ⟨"emails.json \x27emails\x27 field is not an array", ?_⟩
              simp only [loadEmailsRecords]
              rw [if_neg h1, if_neg h2]
              simp only [hg]
            | num n =>
              refine ⟨"emails.json \x27emails\x27 field is not an array", ?_⟩
              simp only [loadEmailsRecords]
              rw [if_neg h1, if_neg h2]
              simp only [hg]
            | bool b =>
              refine ⟨"emails.json \x27emails\x27 field is not an array", ?_⟩
              simp only [loadEmailsRecords]
              rw [if_neg h1, if_neg h2]
              simp only [hg]
            | null =>
              refine ⟨"emails.json \x27emails\x27 field is not an array", ?_⟩
              simp only [loadEmailsRecords]
              rw [if_neg h1, if_neg h2]
              simp only [hg]
            | obj gs =>
              refine ⟨"emails.json \x27emails\x27 field is not an array", ?_⟩
              simp only [loadEmailsRecords]
              rw [if_neg h1, if_neg h2]
              simp only [hg]
    | str s => exact ⟨_, rfl⟩
    | num n => exact ⟨_, rfl⟩
    | bool b => exact ⟨_, rfl⟩
    | null => exact ⟨_, rfl⟩
    | arr xs => exact ⟨_, rfl⟩

theorem docFatal_ok {ef : FileRead} (hf : docFatal ef = false) :
    ∃ records, loadEmailsRecords ef = .ok records := by
  cases ef with
  | parseError => simp [docFatal] at hf
  | absent => exact ⟨[], rfl⟩
  | ok v =>
    cases v with
    | obj fs =>
      simp only [docFatal] at hf
      by_cases h1 : ¬ hasKey fs "version" = true
      · rw [if_pos h1] at hf
        simp at hf
      · rw [if_neg h1] at hf
        by_cases h2 : ¬ (validate_version (jget fs "version")).1 = true
        · refine ⟨[], ?_⟩
          simp only [loadEmailsRecords]
          rw [if_neg h1, if_pos h2]
        · rw [if_neg h2] at hf
          cases hg : jget fs "emails" with
          | none =>
            refine ⟨[], ?_⟩
            simp only [loadEmailsRecords]
            rw [if_neg h1, if_neg h2]
            simp only [hg]
          | some w =>
            cases w with
            | arr rs =>
              refine ⟨rs, ?_⟩
              simp only [loadEmailsRecords]
              rw [if_neg h1, if_neg h2]
              simp only [hg]
            | str s => simp [hg] at hf
            | num n => simp [hg] at hf
            | bool b => simp [hg] at hf
            | null => simp [hg] at hf
            | obj gs => simp [hg] at hf
    | str s => simp [docFatal] at hf
    | num n => simp [docFatal] at hf
    | bool b => simp [docFatal] at hf
    | null => simp [docFatal] at hf
    | arr xs => simp [docFatal] at hf

theorem exBind_err {α β : Type} {x : Except InitError α}
    {f : α → Except InitError β} {e : InitError}
    (h : exBind x f = .error e) :
    x = .error e ∨ ∃ a, x = .ok a ∧ f a = .error e := by
  cases x with
  | error e' =>
    simp only [exBind] at h
    injection h with h
    exact Or.inl (by rw [h])
  | ok a => exact Or.inr ⟨a, rfl, h⟩

theorem quarAppend_err {q entry : JValue} {e : InitError}
    (h : quarAppend q entry = .error e) : e = .attributeError := by
  cases q with
  | arr xs => simp [quarAppend] at h
  | str s => simp only [quarAppend] at h; injection h with h; exact h.symm
  | num n => simp only [quarAppend] at h; injection h with h; exact h.symm
  | bool b => simp only [quarAppend] at h; injection h with h; exact h.symm
  | null => simp only [quarAppend] at h; injection h with h; exact h.symm
  | obj fs => simp only [quarAppend] at h; injection h with h; exact h.symm

theorem processValidate_err {now : String} {st : EmailMap × JValue}
    {fs : List (String × JValue)} {e : InitError}
    (h : processValidate now st fs = .error e) : e = .attributeError := by
  simp only [processValidate] at h
  by_cases hv : ¬ (validate_email_data fs).1 = true
  · rw [if_pos hv] at h
    rcases exBind_err h with h1 | ⟨q, _, h2⟩
    · exact quarAppend_err h1
    · simp at h2
  · rw [if_neg hv] at h
    cases hm : makeFromFixed (validate_email_data fs).2.2 with
    | some e' =>
      rw [hm] at h
      simp only [Option.elim] at h
      simp at h
    | none =>
      rw [hm] at h
      simp only [Option.elim] at h
      rcases exBind_err h with h1 | ⟨q, _, h2⟩
      · exact quarAppend_err h1
      · simp at h2

theorem processRecord_err {records : List JValue} {now : String}
    {st : EmailMap × JValue} {r : JValue} {e : InitError}
    (h : processRecord records now st r = .error e) : e = .attributeError := by
  cases r with
  | obj fs =>
    simp only [processRecord] at h
    cases hid : jget fs "id" with
    | some v =>
      rw [hid] at h
      simp only [Option.elim] at h
      by_cases hdup : (truthy (some v) && idCount records v > 1) = true
      · rw [if_pos hdup] at h
        rcases exBind_err h with h1 | ⟨q, _, h2⟩
        · exact quarAppend_err h1
        · simp at h2
      · rw [if_neg hdup] at h
        exact processValidate_err h
    | none =>
      rw [hid] at h
      simp only [Option.elim] at h
      exact processValidate_err h
  | str s => simp only [processRecord] at h; injection h with h; exact h.symm
  | num n => simp only [processRecord] at h; injection h with h; exact h.symm
  | bool b => simp only [processRecord] at h; injection h with h; exact h.symm
  | null => simp only [processRecord] at h; injection h with h; exact h.symm
  | arr xs => simp only [processRecord] at h; injection h with h; exact h.symm

theorem foldRecords_err {records : List JValue} {now : String} :
    ∀ (l : List JValue) (st : EmailMap × JValue) (e : InitError),
    foldRecords records now st l = .error e → e = .attributeError
  | [], st, e, h => by simp [foldRecords] at h
  | r :: l, st, e, h => by
    simp only [foldRecords] at h
    rcases exBind_err h with h1 | ⟨st1, _, h2⟩
    · exact processRecord_err h1
    · exact foldRecords_err l st1 e h2

theorem firstPassCheck_err :
    ∀ (l : List JValue) (e : InitError),
    firstPassCheck l = .error e → e = .attributeError ∨ e = .typeError
  | [], e, h => by simp [firstPassCheck] at h
  | .obj fs :: rs, e, h => by
    simp only [firstPassCheck] at h
    cases hg : jget fs "id" with
    | some v =>
      simp only [hg] at h
      by_cases ht : truthy (some v) = true
      · rw [if_pos ht] at h
        by_cases hh : jhashable v = true
        · rw [if_pos hh] at h
          exact firstPassCheck_err rs e h
        · rw [if_neg hh] at h
          injection h with h
          exact Or.inr h.symm
      · rw [if_neg ht] at h
        exact firstPassCheck_err rs e h
    | none =>
      simp only [hg] at h
      exact firstPassCheck_err rs e h
  | .str s :: rs, e, h => by
    simp only [firstPassCheck] at h
    injection h with h
    exact Or.inl h.symm
  | .num n :: rs, e, h => by
    simp only [firstPassCheck] at h
    injection h with h
    exact Or.inl h.symm
  | .bool b :: rs, e, h => by
    simp only [firstPassCheck] at h
    injection h with h
    exact Or.inl h.symm
  | .null :: rs, e, h => by
    simp only [firstPassCheck] at h
    injection h with h
    exact Or.inl h.symm
  | .arr xs :: rs, e, h => by
    simp only [firstPassCheck] at h
    injection h with h
    exact Or.inl h.symm

theorem processRecords_err {now : String} {records : List JValue}
    {q0 : JValue} {e : InitError}
    (h : processRecords now records q0 = .error e) :
    e = .attributeError ∨ e = .typeError := by
  unfold processRecords at h
  rcases exBind_err h with h1 | ⟨u, _, h2⟩
  · exact firstPassCheck_err records e h1
  · exact Or.inl (foldRecords_err records ([], q0) e h2)

theorem init_error_inv {now : String} {ef qf : FileRead} {e : InitError}
    (h : initializeStorage now ef qf = .error e) :
    loadEmailsRecords ef = .error e ∨
      ∃ records, loadEmailsRecords ef = .ok records ∧
        processRecords now records (loadQuarantined qf) = .error e := by
  unfold initializeStorage at h
  rcases exBind_err h with h1 | ⟨records, hr, h2⟩
  · exact Or.inl h1
  · rcases exBind_err h2 with h3 | ⟨p, _, h4⟩
    · exact Or.inr ⟨records, hr, h3⟩
    · simp at h4

theorem quarProblem_heal {qf : FileRead} (hq : quarProblem qf = true) :
    loadQuarantined qf = .arr [] := by
  cases qf with
  | parseError => rfl
  | absent => simp [quarProblem] at hq
  | ok v =>
    cases v with
    | obj fs =>
      simp only [quarProblem] at hq
      simp only [loadQuarantined]
      by_cases h1 : ¬ hasKey fs "version" = true ∨ ¬ hasKey fs "quarantined" = true
      · rw [if_pos h1]
      · rw [if_neg h1]
        by_cases h2 : ¬ (validate_version (jget fs "version")).1 = true
        · rw [if_pos h2]
        · exfalso
          rw [not_or] at h1
          simp [not_not.mp h1.1, not_not.mp h1.2, not_not.mp h2] at hq
    | str s => rfl
    | num n => rfl
    | bool b => rfl
    | null => rfl
    | arr xs => rfl

/-- C7 (amended): a StorageInitializationError is raised exactly when the
message document is fatal in the source sense (parse failure, non-object,
missing version, or non-array collection under a well-formed version), and
every enumerated quarantine-document problem heals to an empty quarantine,
leaving the run identical to one with no quarantine file.  (The original
iff fails in both directions — see the counterexample: a non-array
collection under an unrecognised version is non-fatal, and a well-formed
document can still crash the process with a TypeError.) -/
theorem claim_init_fatal (now : String) (ef qf : FileRead) :
    (docFatal ef = true → ∃ msg, initializeStorage now ef qf =
      .error (.storageInitError msg)) ∧
    (docFatal ef = false → ∀ msg, initializeStorage now ef qf ≠
      .error (.storageInitError msg)) ∧
    (quarProblem qf = true →
      initializeStorage now ef qf = initializeStorage now ef .absent) := by
  refine ⟨?_, ?_, ?_⟩
  · intro hf
    obtain ⟨msg, hmsg⟩ := docFatal_load hf
    refine ⟨msg, ?_⟩
    unfold initializeStorage
    rw [hmsg]
    rfl
  · intro hf msg heq
    obtain ⟨records, hrec⟩ := docFatal_ok hf
    rcases init_error_inv heq with h1 | ⟨records', h1, h2⟩
    · rw [hrec] at h1
      exact absurd h1 (by simp)
    · rcases processRecords_err h2 with h3 | h3 <;> simp at h3
  · intro hq
    unfold initializeStorage
    rw [quarProblem_heal hq]
    rfl

theorem claim_init_fatal_witness :
    docFatal .parseError = true ∧
    ∃ msg, initializeStorage "T" .parseError .absent =
      .error (.storageInitError msg) :=
  ⟨rfl, (claim_init_fatal "T" .parseError .absent).1 rfl⟩

def nonArrEF : FileRead :=
  .ok (.obj [("version", .num 2), ("emails", .str "x")])

def badIdRecEF : FileRead :=
  .ok (.obj [("version", .num 1),
    ("emails", .arr [.obj [("id", .arr [.num 1])]])])

/-- The claimed iff fails both ways: a document whose collection is not an
array but whose version is unrecognised initializes fine, and a perfectly
shaped document holding one record with an unhashable truthy id kills
startup with a TypeError even though no enumerated fatal condition holds. -/
theorem claim_init_fatal_counterexample :
    initializeStorage "T" nonArrEF .absent = .ok ⟨[], .arr []⟩ ∧
    initializeStorage "T" badIdRecEF .absent = .error .typeError :=
  ⟨rfl, rfl⟩

end Agora
